import Mathlib

/-!
# wallplayer: byte-range streaming, path containment and directory listing

A shallow embedding of the Go packages `pkg/player`, `pkg/browse` and the HTTP
handlers of `cmd/handlers.go`, together with the parts of the Go standard
library they call (`strings`, `strconv`, `path/filepath` on Unix, `net/http`
response writing, `sort.Slice`).

Go strings are modelled as lists of characters, `int64` values as integers
with an explicit wrap-around where the source does arithmetic on them.
-/

namespace Wallplayer

/-- Go `string`, as the list of its characters. -/
abbrev GoString := List Char

/-- Equality of Go results (value or error) is decidable. -/
instance instDecidableEqExcept {ε α : Type} [DecidableEq ε] [DecidableEq α] :
    DecidableEq (Except ε α) := fun a b =>
  match a, b with
  | .ok x, .ok y => if h : x = y then isTrue (by rw [h]) else isFalse (fun h2 => h (by injection h2))
  | .error x, .error y =>
    if h : x = y then isTrue (by rw [h]) else isFalse (fun h2 => h (by injection h2))
  | .ok _, .error _ => isFalse (fun h => by injection h)
  | .error _, .ok _ => isFalse (fun h => by injection h)

/-! ## Package `strings` -/

/-- Go `strings.HasPrefix(s, pre)`. -/
def HasPrefix (s pre : GoString) : Bool := pre.isPrefixOf s

/-- Go `strings.TrimPrefix(s, pre)`: `s` without the leading `pre`, or `s` itself. -/
def TrimPrefix (s pre : GoString) : GoString :=
  if HasPrefix s pre then s.drop pre.length else s

/-- Go `strings.Split(s, sep)` for a one-byte separator: the pieces of `s`
between the occurrences of `sep` (always at least one piece). -/
def Split (s : GoString) (sep : Char) : List GoString :=
  match s with
  | [] => [[]]
  | c :: cs =>
    if c = sep then [] :: Split cs sep
    else
      match Split cs sep with
      | [] => [[c]]
      | p :: ps => (c :: p) :: ps

/-- Go `strings.Contains(s, sub)`. -/
def Contains (s sub : GoString) : Bool :=
  match s with
  | [] => sub.isEmpty
  | c :: cs => sub.isPrefixOf (c :: cs) || Contains cs sub

/-- Go `unicode.ToLower(r)`. On an ASCII rune it is the rule of the Go source:
`A`..`Z` move by 32, the others stay. A rune above ASCII is looked up in
Unicode's case table, which is not part of this development: `caseTable` is
that lookup (it sends `É` to `é` and the Kelvin sign to `k`). -/
def toLowerRune (caseTable : Char → Char) (c : Char) : Char :=
  if c.toNat ≤ 127 then
    if 65 ≤ c.toNat ∧ c.toNat ≤ 90 then Char.ofNat (c.toNat + 32) else c
  else caseTable c

/-- Go `strings.ToLower(s)`: every rune mapped by `unicode.ToLower`. -/
def ToLower (caseTable : Char → Char) (s : GoString) : GoString :=
  s.map (toLowerRune caseTable)

/-- A case table for the samples below, which maps every rune to itself. The
names in the samples are ASCII, where no case table is consulted. -/
def sampleCaseTable : Char → Char := fun c => c

/-- Go `strings.Join(elems, sep)`. -/
def stringsJoin (elems : List GoString) (sep : GoString) : GoString :=
  match elems with
  | [] => []
  | [a] => a
  | a :: b :: rest => a ++ sep ++ stringsJoin (b :: rest) sep

/-! ## Package `strconv` -/

/-- Wrap-around of an integer into the `int64` range. -/
def wrapInt64 (x : Int) : Int := (x + 2 ^ 63) % 2 ^ 64 - 2 ^ 63

/-- The two kinds of `*strconv.NumError`. -/
inductive NumError where
  | errSyntax
  | errRange
  deriving DecidableEq, Repr

/-- Largest `uint64`. -/
def maxUint64 : Nat := 2 ^ 64 - 1

/-- The digit loop of Go `strconv.ParseUint(s, 10, 64)`; `n` is the value read so far. -/
def parseUintLoop (n : Nat) (s : GoString) : Except NumError Nat :=
  match s with
  | [] => .ok n
  | c :: cs =>
    if 48 ≤ c.toNat ∧ c.toNat ≤ 57 then
      let d := c.toNat - 48
      -- cutoff is maxUint64/10 + 1: n*10 would overflow
      if n ≥ maxUint64 / 10 + 1 then .error .errRange
      else
        let n10 := n * 10
        let n1 := (n10 + d) % 2 ^ 64
        if n1 < n10 ∨ n1 > maxUint64 then .error .errRange
        else parseUintLoop n1 cs
    else .error .errSyntax

/-- Go `strconv.ParseUint(s, 10, 64)`. -/
def ParseUint (s : GoString) : Except NumError Nat :=
  if s = [] then .error .errSyntax else parseUintLoop 0 s

/-- Go `strconv.ParseInt(s, 10, 64)`: optional sign, then `ParseUint`, then the
signed range check. -/
def ParseInt (s : GoString) : Except NumError Int :=
  match s with
  | [] => .error .errSyntax
  | c :: rest =>
    let neg : Bool := c = '-'
    let body := if c = '+' ∨ c = '-' then rest else s
    match ParseUint body with
    | .error .errSyntax => .error .errSyntax
    | r =>
      let un : Nat := match r with
        | .ok n => n
        | .error _ => maxUint64
      if !neg && un ≥ 2 ^ 63 then .error .errRange
      else if neg && un > 2 ^ 63 then .error .errRange
      else
        let n := wrapInt64 (un : Int)
        .ok (if neg then wrapInt64 (-n) else n)

/-- Digits of `n` in base 10, most significant first; `fuel` bounds the number of digits. -/
def formatDigits (fuel n : Nat) : GoString :=
  match fuel with
  | 0 => []
  | fuel + 1 =>
    if n < 10 then [Char.ofNat (48 + n)]
    else formatDigits fuel (n / 10) ++ [Char.ofNat (48 + n % 10)]

/-- Go `strconv.FormatInt(i, 10)`, which is also what `fmt.Sprintf("%d", i)` prints. -/
def FormatInt (i : Int) : GoString :=
  if i < 0 then '-' :: formatDigits (i.natAbs + 1) i.natAbs
  else formatDigits (i.natAbs + 1) i.natAbs

/-! ## `player.parseRange` -/

/-- The errors `parseRange` returns. -/
inductive RangeError where
  /-- The error `errors.New("invalid range format")`. -/
  | invalidFormat
  /-- An error of `strconv.ParseInt`. -/
  | num (e : NumError)
  /-- The error `errors.New("invalid range values")`. -/
  | invalidValues
  deriving DecidableEq, Repr

/-- Embedding of `parseRange(rangeHeader string, fileSize int64)` in `pkg/player/player.go`. -/
def parseRange (rangeHeader : GoString) (fileSize : Int) : Except RangeError (Int × Int) :=
  match Split (TrimPrefix rangeHeader "bytes=".toList) '-' with
  | [p0, p1] =>
    -- Parse start
    match (if p0 = [] then Except.ok 0 else ParseInt p0) with
    | .error e => .error (.num e)
    | .ok start =>
      -- Parse end
      match (if p1 = [] then Except.ok (wrapInt64 (fileSize - 1)) else ParseInt p1) with
      | .error e => .error (.num e)
      | .ok end_ =>
        -- Validate range
        if start < 0 ∨ end_ ≥ fileSize ∨ start > end_ then .error .invalidValues
        else .ok (start, end_)
  | _ => .error .invalidFormat

/-- The characters `ds` are a decimal numeral (one or more of the digits `0`..`9`,
leading zeros allowed) whose value is `n`. -/
def IsDecimal (ds : GoString) (n : Nat) : Prop :=
  ds ≠ [] ∧ (∀ c ∈ ds, 48 ≤ c.toNat ∧ c.toNat ≤ 57) ∧
    ds.foldl (fun acc c => acc * 10 + (c.toNat - 48)) 0 = n

/-! ## Package `path/filepath` (Unix) -/

/-- The path separator `filepath.Separator`. -/
def Separator : Char := '/'

/-- The path element `..`. -/
def dotdot : GoString := ['.', '.']

/-- One step of the loop of `filepath.Clean` over the path elements (the pieces
between separators). `out` holds the elements written so far, last one first.
An empty element and `.` are dropped; `..` removes the last element written
unless there is none to remove (nothing written, or only a leading run of `..`),
in which case it is dropped on a rooted path and kept on a relative one; any
other element is written. -/
def cleanStep (rooted : Bool) (out : List GoString) (elem : GoString) : List GoString :=
  if elem = [] then out
  else if elem = ['.'] then out
  else if elem = dotdot then
    match out with
    | top :: rest => if top = dotdot then elem :: out else rest
    | [] => if rooted then [] else [elem]
  else elem :: out

/-- The elements that `filepath.Clean` keeps, in path order. -/
def cleanElems (rooted : Bool) (path : GoString) : List GoString :=
  ((Split path Separator).foldl (cleanStep rooted) []).reverse

/-- Go `filepath.Clean(path)` on Unix: the shortest path name equivalent to
`path` by purely lexical processing. The empty path becomes `.`; a rooted
result starts with one separator; no result but the root ends in a separator. -/
def Clean (path : GoString) : GoString :=
  match path with
  | [] => ['.']
  | c :: _ =>
    let rooted : Bool := c = Separator
    let elems := cleanElems rooted path
    if rooted then Separator :: stringsJoin elems [Separator]
    else if elems = [] then ['.'] else stringsJoin elems [Separator]

/-- Go `filepath.Join(elem...)`: the elements from the first non-empty one on,
joined by separators and cleaned; the empty string when all are empty. -/
def Join (elem : List GoString) : GoString :=
  match elem with
  | [] => []
  | e :: rest => if e ≠ [] then Clean (stringsJoin (e :: rest) [Separator]) else Join rest

/-- Go `filepath.IsAbs(path)` on Unix. -/
def IsAbs (path : GoString) : Bool := HasPrefix path [Separator]

/-- Go `filepath.Abs(path)` on Unix; `wd` is what `os.Getwd` returns (`none` when
it fails, which makes `Abs` fail on a relative path). -/
def Abs (wd : Option GoString) (path : GoString) : Option GoString :=
  if IsAbs path then some (Clean path)
  else
    match wd with
    | none => none
    | some dir => some (Join [dir, path])

/-- Go `filepath.Ext(path)`, scanning `rev`, the path read from its end; `acc`
is what has been read so far. -/
def extScan (acc : GoString) (rev : GoString) : GoString :=
  match rev with
  | [] => []
  | c :: cs =>
    if c = Separator then []
    else if c = '.' then c :: acc
    else extScan (c :: acc) cs

/-- Go `filepath.Ext(path)`: the suffix from the final dot of the final element, or empty. -/
def Ext (path : GoString) : GoString := extScan [] path.reverse

/-- Go `filepath.Base(path)` on Unix: the last element of the path (trailing
separators removed); `.` for the empty path, the separator for a path of separators. -/
def Base (path : GoString) : GoString :=
  if path = [] then ['.']
  else
    let stripped := (path.reverse.dropWhile (fun c => c = Separator)).reverse
    if stripped = [] then [Separator]
    else (stripped.reverse.takeWhile (fun c => c ≠ Separator)).reverse

/-! ## Package `video`: what the other packages use of it -/

/-- The table `video.Extensions`. -/
def Extensions : List GoString :=
  [".mp4".toList, ".webm".toList, ".mkv".toList, ".avi".toList, ".mov".toList, ".m4v".toList]

/-- Embedding of `video.IsVideo(path)`. -/
def IsVideo (caseTable : Char → Char) (path : GoString) : Bool :=
  let ext := Ext path
  decide (ToLower caseTable ext ∈ Extensions)

/-! ## Path containment: `browse.sanitizePath` and `player.validatePath` -/

/-- The sentinel error `ErrInvalidPath` (one in package `browse`, one in package `player`). -/
inductive PathError where
  | ErrInvalidPath
  deriving DecidableEq, Repr

/-- Embedding of `sanitizePath(path string)` in `pkg/browse/browse.go`; `BaseDir` is
the package variable, `wd` the working directory `filepath.Abs` would consult. -/
def sanitizePath (BaseDir : GoString) (wd : Option GoString) (path : GoString) :
    Except PathError GoString :=
  -- If path is empty or root, use base dir
  if path = [] ∨ path = ['/'] then .ok BaseDir
  else
    -- Clean the path to resolve any ".." or "." components
    let cleanPath := Join [BaseDir, Clean path]
    -- Get absolute path
    match Abs wd cleanPath with
    | none => .error .ErrInvalidPath
    | some absPath =>
      -- Check if the path is within BaseDir
      if !HasPrefix absPath BaseDir then .error .ErrInvalidPath
      else .ok absPath

/-- Embedding of `validatePath(path string)` in `pkg/player/player.go`. -/
def validatePath (BaseDir : GoString) (wd : Option GoString) (path : GoString) :
    Except PathError GoString :=
  -- Clean the path to resolve any ".." or "." components
  let cleanPath := Clean path
  -- Join with base directory
  let fullPath := Join [BaseDir, cleanPath]
  -- Get absolute path
  match Abs wd fullPath with
  | none => .error .ErrInvalidPath
  | some absPath =>
    -- Check if the path is within BaseDir
    if !HasPrefix absPath BaseDir then .error .ErrInvalidPath
    else .ok absPath

/-! ## Package `net/http`: requests and response writing -/

/-- What the handlers read of an `*http.Request`: the method, the `Range` header
(empty when absent, as `Header.Get` returns it) and the query parameters `path`
and `lang` (empty when absent, as `Query().Get` returns them). -/
structure Request where
  Method : GoString
  Range : GoString
  queryPath : GoString
  queryLang : GoString
  deriving DecidableEq, Repr

/-- The response as it goes on the wire. `status` is `none` until the status line
is written; header changes after that point are not sent and are not recorded. -/
structure ResponseWriter where
  /-- The request method was `HEAD`: the server drops body bytes. -/
  isHead : Bool
  header : List (GoString × GoString)
  status : Option Nat
  body : GoString
  deriving DecidableEq, Repr

/-- The response writer the server hands to a handler. -/
def newResponseWriter (r : Request) : ResponseWriter :=
  { isHead := r.Method = "HEAD".toList, header := [], status := none, body := [] }

/-- The call `w.Header().Del(key)`. -/
def ResponseWriter.headerDel (w : ResponseWriter) (key : GoString) : ResponseWriter :=
  if w.status.isSome then w
  else { w with header := w.header.filter (fun kv => kv.1 ≠ key) }

/-- The call `w.Header().Set(key, value)`. -/
def ResponseWriter.headerSet (w : ResponseWriter) (key value : GoString) : ResponseWriter :=
  if w.status.isSome then w
  else { w with header := w.header.filter (fun kv => kv.1 ≠ key) ++ [(key, value)] }

/-- The value `w.Header().Get(key)` of the response. -/
def ResponseWriter.headerGet (w : ResponseWriter) (key : GoString) : Option GoString :=
  (w.header.find? (fun kv => kv.1 = key)).map (fun kv => kv.2)

/-- The call `w.WriteHeader(code)`: the first call fixes the status, later ones are ignored. -/
def ResponseWriter.WriteHeader (w : ResponseWriter) (code : Nat) : ResponseWriter :=
  if w.status.isSome then w else { w with status := some code }

/-- The call `w.Write(data)`: writes the status 200 first when none was written;
the bytes are dropped on a `HEAD` request. -/
def ResponseWriter.Write (w : ResponseWriter) (data : GoString) : ResponseWriter :=
  let w1 := w.WriteHeader 200
  if w1.isHead then w1 else { w1 with body := w1.body ++ data }

/-- Go `http.Error(w, error, code)`. -/
def httpError (w : ResponseWriter) (error : GoString) (code : Nat) : ResponseWriter :=
  let w1 := w.headerDel "Content-Length".toList
  let w2 := w1.headerSet "Content-Type".toList "text/plain; charset=utf-8".toList
  let w3 := w2.headerSet "X-Content-Type-Options".toList "nosniff".toList
  let w4 := w3.WriteHeader code
  w4.Write (error ++ ['\n'])

/-- Go `http.Redirect(w, r, url, code)`, as far as the handlers depend on it: the
`Location` header carries `url` and the status is `code` (the short HTML note Go
adds as body is left out). -/
def httpRedirect (w : ResponseWriter) (url : GoString) (code : Nat) : ResponseWriter :=
  (w.headerSet "Location".toList url).WriteHeader code

/-! ## `player.Stream` -/

/-- The files of the machine: the content of the regular file at a path, `none`
when `os.Open` fails there. Content is a Go byte string. -/
abbrev FileSys := GoString → Option GoString

/-- The errors `Stream` returns. -/
inductive StreamError where
  /-- The sentinel `player.ErrInvalidPath`. -/
  | ErrInvalidPath
  /-- The error of `os.Open`. -/
  | openError
  /-- The error `errors.New("not a video file")`. -/
  | notVideo
  /-- An error of `parseRange`. -/
  | range (e : RangeError)
  /-- The error of `file.Seek`. -/
  | seekError
  /-- The error of `io.Copy` or `io.CopyN` (`io.EOF` when the file is too short). -/
  | copyError
  deriving DecidableEq, Repr

/-- Embedding of `getContentType(path string)` in `pkg/player/player.go`. -/
def getContentType (caseTable : Char → Char) (path : GoString) : GoString :=
  let ext := ToLower caseTable (Ext path)
  if ext = ".mp4".toList then "video/mp4".toList
  else if ext = ".webm".toList then "video/webm".toList
  else if ext = ".mkv".toList then "video/x-matroska".toList
  else if ext = ".avi".toList then "video/x-msvideo".toList
  else if ext = ".mov".toList then "video/quicktime".toList
  else "application/octet-stream".toList

/-- Embedding of `isVideoFile(path string)` in `pkg/player/player.go`. -/
def isVideoFile (caseTable : Char → Char) (path : GoString) : Bool := IsVideo caseTable path

/-- Go `io.CopyN(w, file, n)` on a file with content `content` positioned at
`offset`: writes the bytes available up to `n`, and fails when they are fewer
than `n`. -/
def copyN (w : ResponseWriter) (content : GoString) (offset : Nat) (n : Nat) :
    ResponseWriter × Option StreamError :=
  let chunk := (content.drop offset).take n
  let w1 := if chunk = [] then w else w.Write chunk
  (w1, if chunk.length = n then none else some .copyError)

/-- Embedding of `Stream(w http.ResponseWriter, r *http.Request, path string)` in
`pkg/player/player.go`; returns the response written and the error returned.
`file.Stat` on the opened file is taken to succeed and to report the length of
the content; `io.Copy` of the whole file is `copyN` of its length from offset 0. -/
def Stream (caseTable : Char → Char) (BaseDir : GoString) (wd : Option GoString)
    (fsys : FileSys)
    (w : ResponseWriter) (r : Request) (path : GoString) :
    ResponseWriter × Option StreamError :=
  -- Validate path
  match validatePath BaseDir wd path with
  | .error _ => (w, some .ErrInvalidPath)
  | .ok fullPath =>
    -- Open the video file
    match fsys fullPath with
    | none => (w, some .openError)
    | some content =>
      -- Get file info
      let fileSize : Int := content.length
      -- Check if the file is a video
      if !isVideoFile caseTable fullPath then (w, some .notVideo)
      else
        let rangeHeader := r.Range
        if rangeHeader = [] then
          -- No range requested, serve full file
          let w1 := w.headerSet "Content-Length".toList (FormatInt fileSize)
          let w2 := w1.headerSet "Content-Type".toList (getContentType caseTable fullPath)
          copyN w2 content 0 content.length
        else
          -- Parse the range header
          match parseRange rangeHeader fileSize with
          | .error e => (w, some (.range e))
          | .ok (start, end_) =>
            -- Seek to start position
            if start < 0 then (w, some .seekError)
            else
              -- Set headers for partial content
              let w1 := w.headerSet "Content-Range".toList
                ("bytes ".toList ++ FormatInt start ++ ['-'] ++ FormatInt end_ ++ ['/'] ++
                  FormatInt fileSize)
              let w2 := w1.headerSet "Accept-Ranges".toList "bytes".toList
              let w3 := w2.headerSet "Content-Length".toList
                (FormatInt (wrapInt64 (wrapInt64 (end_ - start) + 1)))
              let w4 := w3.headerSet "Content-Type".toList (getContentType caseTable fullPath)
              let w5 := if r.Method ≠ "HEAD".toList then w4.WriteHeader 206 else w4
              -- Stream the content
              copyN w5 content start.toNat (wrapInt64 (wrapInt64 (end_ - start) + 1)).toNat

/-- Embedding of `handleVideoStream` in `cmd/handlers.go`: the response to a
request on `/api/video/stream`. -/
def handleVideoStream (caseTable : Char → Char) (BaseDir : GoString) (wd : Option GoString)
    (fsys : FileSys)
    (r : Request) : ResponseWriter :=
  let w := newResponseWriter r
  let path := r.queryPath
  if path = [] then httpError w "path parameter required".toList 400
  else
    match Stream caseTable BaseDir wd fsys w r path with
    | (w1, none) => w1
    | (w1, some err) =>
      if err = StreamError.ErrInvalidPath then httpError w1 "Invalid path".toList 400
      else httpError w1 "Internal server error".toList 500

/-! ## The handlers of the `video` endpoints -/

/-- What a handler run did: the response it wrote and the paths it passed, in
order, to the functions of package `video`. -/
structure HandlerRun where
  response : ResponseWriter
  videoCalls : List GoString
  deriving DecidableEq, Repr

/-- Embedding of `handleVideoAPI` in `cmd/handlers.go`. `GetInfo` is the call
`video.GetInfo` (error text or info) and `encode` the JSON encoding of the
reply built from the query path and the info. -/
def handleVideoAPI {Info : Type} (BaseDir : GoString)
    (GetInfo : GoString → Except GoString Info) (encode : GoString → Info → GoString)
    (r : Request) : HandlerRun :=
  let w := newResponseWriter r
  let path := r.queryPath
  if path = [] then
    { response := httpError w "path parameter required".toList 400, videoCalls := [] }
  else
    let fullPath := Join [BaseDir, path]
    match GetInfo fullPath with
    | .error _ =>
      { response := httpError w "Error reading video info".toList 500, videoCalls := [fullPath] }
    | .ok info =>
      let w1 := w.headerSet "Content-Type".toList "application/json".toList
      { response := w1.Write (encode path info), videoCalls := [fullPath] }

/-- Embedding of `handleVideoSubtitle` in `cmd/handlers.go`. `EnsureSubtitle` is
the call `video.EnsureSubtitle` (error text or subtitle path). -/
def handleVideoSubtitle (BaseDir : GoString)
    (EnsureSubtitle : GoString → GoString → Except GoString GoString)
    (r : Request) : HandlerRun :=
  let w := newResponseWriter r
  let path := r.queryPath
  let lang := r.queryLang
  if path = [] ∨ lang = [] then
    { response := httpError w "path and lang parameters required".toList 400, videoCalls := [] }
  else
    let fullPath := Join [BaseDir, path]
    match EnsureSubtitle fullPath lang with
    | .error msg =>
      if Contains msg "no subtitle found for language".toList then
        { response := httpError w msg 404, videoCalls := [fullPath] }
      else
        { response := httpError w "Error handling subtitle".toList 500, videoCalls := [fullPath] }
    | .ok subtitlePath =>
      { response := httpRedirect w ("/subtitles/".toList ++ Base subtitlePath) 302,
        videoCalls := [fullPath] }

/-- Embedding of `handleVideoThumbnail` in `cmd/handlers.go`. `GenerateThumbnail`
is the call `video.GenerateThumbnail` (error text or thumbnail URL path). -/
def handleVideoThumbnail (BaseDir : GoString)
    (GenerateThumbnail : GoString → Except GoString GoString)
    (r : Request) : HandlerRun :=
  let w := newResponseWriter r
  let path := r.queryPath
  if path = [] then
    { response := httpError w "path parameter required".toList 400, videoCalls := [] }
  else
    let fullPath := Join [BaseDir, path]
    match GenerateThumbnail fullPath with
    | .error _ =>
      { response := httpError w "Error generating thumbnail".toList 500,
        videoCalls := [fullPath] }
    | .ok thumbPath =>
      { response := httpRedirect w thumbPath 302, videoCalls := [fullPath] }

/-! ## `browse.List` -/

/-- Go `os.FileInfo`, as far as `List` reads it; `modTime` is the modification
time as `Format(time.RFC3339)` prints it. -/
structure FileInfo where
  size : Int
  modTime : GoString
  isDir : Bool
  deriving DecidableEq, Repr

/-- Go `os.DirEntry`; `info` is `none` when `entry.Info()` fails. Names are not empty. -/
structure DirEntry where
  name : GoString
  isDir : Bool
  info : Option FileInfo
  deriving DecidableEq, Repr

/-- The directory tree as `List` sees it: `os.Stat` and `os.ReadDir`, `none` on error. -/
structure DirTree where
  stat : GoString → Option FileInfo
  readDir : GoString → Option (List DirEntry)

/-- The struct `browse.Item`. `Duration` is a `float64` number of seconds in the
source; `List` only carries the value, here an integer. -/
structure Item where
  Name : GoString
  Path : GoString
  FullPath : GoString
  /-- The field `Type` of the source: `directory` or `video`. -/
  Type_ : GoString
  Size : Int
  Duration : Int
  UpdatedAt : GoString
  deriving DecidableEq, Repr

/-- The local struct `workItem` of `List`. -/
structure workItem where
  fullPath : GoString
  info : FileInfo
  name : GoString
  relPath : GoString
  deriving DecidableEq, Repr

/-- The errors `List` returns. -/
inductive ListError where
  /-- The sentinel `browse.ErrInvalidPath`. -/
  | ErrInvalidPath
  /-- The error of `os.Stat`. -/
  | statError
  /-- The error `path is not a directory`. -/
  | notDirectory
  /-- The error of `os.ReadDir`. -/
  | readDirError
  deriving DecidableEq, Repr

/-- The elements `filepath.Rel` walks over in a cleaned path. -/
def relElems (p : GoString) : List GoString :=
  if p = [] then [] else if p = [Separator] then [[]] else Split p Separator

/-- The common leading elements of base and target removed. -/
def dropCommon (base targ : List GoString) : List GoString × List GoString :=
  match base, targ with
  | b :: bs, t :: ts => if t = b then dropCommon bs ts else (b :: bs, t :: ts)
  | bs, ts => (bs, ts)

/-- Go `filepath.Rel(basepath, targpath)` on Unix; `none` when it returns an error. -/
def Rel (basepath targpath : GoString) : Option GoString :=
  let base := Clean basepath
  let targ := Clean targpath
  if targ = base then some ['.']
  else
    let base := if base = ['.'] then [] else base
    if HasPrefix base [Separator] ≠ HasPrefix targ [Separator] then none
    else
      let rest := dropCommon (relElems base) (relElems targ)
      if rest.2 ≠ [] ∧ rest.1.head? = some dotdot then none
      else if rest.1 ≠ [] then
        some (stringsJoin (rest.1.map (fun _ => dotdot) ++ rest.2) [Separator])
      else some (stringsJoin rest.2 [Separator])

/-- The first pass of `List` over the directory entries: the directory items,
and the videos left for the concurrent pass, both in directory order. -/
def collectEntries (caseTable : Char → Char) (BaseDir path : GoString)
    (entries : List DirEntry) :
    List Item × List workItem :=
  match entries with
  | [] => ([], [])
  | entry :: rest =>
    let acc := collectEntries caseTable BaseDir path rest
    -- Skip hidden files
    if entry.name.head? = some '.' then acc
    else
      match entry.info with
      | none => acc
      | some info =>
        let fullPath := Join [path, entry.name]
        -- Create path relative to BaseDir for API response
        match Rel BaseDir fullPath with
        | none => acc
        | some relPath =>
          if entry.isDir then
            ({ Name := entry.name, Path := relPath, FullPath := fullPath,
               Type_ := "directory".toList, Size := 0, Duration := 0,
               UpdatedAt := info.modTime } :: acc.1, acc.2)
          else if IsVideo caseTable entry.name then
            (acc.1, { fullPath := fullPath, info := info, name := entry.name,
                      relPath := relPath } :: acc.2)
          else acc

/-- The item one goroutine of `List` sends on `resultChan`; `getDuration` is the
duration `video.GetInfo` reports for a path, `none` when it returns no info. -/
def videoItem (getDuration : GoString → Option Int) (wi : workItem) : Item :=
  let duration : Int := match getDuration wi.fullPath with
    | some d => d
    | none => 0
  { Name := wi.name, Path := wi.relPath, FullPath := wi.fullPath, Type_ := "video".toList,
    Size := wi.info.size, Duration := duration, UpdatedAt := wi.info.modTime }

/-- Go string comparison `a < b`: lexicographic. -/
def strLess (a b : GoString) : Bool :=
  match a, b with
  | _, [] => false
  | [], _ :: _ => true
  | x :: xs, y :: ys =>
    if x.toNat < y.toNat then true
    else if y.toNat < x.toNat then false
    else strLess xs ys

/-- The `less` function `List` passes to `sort.Slice`. -/
def itemLess (caseTable : Char → Char) (a b : Item) : Bool :=
  -- If types are different, directories come first
  if a.Type_ ≠ b.Type_ then a.Type_ = "directory".toList
  -- If types are the same, sort by name
  else strLess (ToLower caseTable a.Name) (ToLower caseTable b.Name)

/-- The inner loop of Go's insertion sort: the new element `x` moves towards the
front past every element it is less than. `sorted` is the part already sorted,
last element first. -/
def insertBack {α : Type} (less : α → α → Bool) (x : α) (sorted : List α) : List α :=
  match sorted with
  | [] => [x]
  | y :: ys => if less x y then y :: insertBack less x ys else x :: y :: ys

/-- Go's `insertionSortLessFunc` over a whole slice: the elements are taken from
the front one by one and each is moved towards the front by `insertBack`. -/
def insertionSort {α : Type} (less : α → α → Bool) (x : List α) : List α :=
  (x.foldl (fun sorted a => insertBack less a sorted) []).reverse

/-- Go `sort.Slice(x, less)` (Go 1.19 and later). A slice of at most 12 elements
is sorted by insertion sort. On a longer slice Go runs its pattern-defeating
quicksort, which is not part of this development: `pdqsort` is that run, and
what is known of it is the contract of `sort.Slice`, stated by `SortsLongSlices`. -/
def sortSlice {α : Type} (pdqsort : (α → α → Bool) → List α → List α)
    (less : α → α → Bool) (x : List α) : List α :=
  if x.length ≤ 12 then insertionSort less x else pdqsort less x

/-- Embedding of `List(requestedPath string)` in `pkg/browse/browse.go`. `arrive`
is the order in which the goroutines deliver their items on `resultChan`: it
maps the items in directory order to the items in arrival order. -/
def ListDir (caseTable : Char → Char)
    (pdqsort : (Item → Item → Bool) → List Item → List Item)
    (BaseDir : GoString) (wd : Option GoString) (tree : DirTree)
    (getDuration : GoString → Option Int) (arrive : List Item → List Item)
    (requestedPath : GoString) : Except ListError (List Item) :=
  -- Sanitize and validate the path
  match sanitizePath BaseDir wd requestedPath with
  | .error _ => .error .ErrInvalidPath
  | .ok path =>
    -- Check if path is a directory
    match tree.stat path with
    | none => .error .statError
    | some info =>
      if !info.isDir then .error .notDirectory
      else
        -- Read directory contents
        match tree.readDir path with
        | none => .error .readDirError
        | some entries =>
          let collected := collectEntries caseTable BaseDir path entries
          let results := arrive (collected.2.map (videoItem getDuration))
          let items := collected.1 ++ results
          -- Sort items by type (directories first) then by name
          .ok (sortSlice pdqsort (itemLess caseTable) items)

/-! ## A sample library used to run the handlers -/

/-- A 1000-byte video content: byte `i` is `i mod 256`. -/
def sampleContent : GoString := (List.range 1000).map (fun i => Char.ofNat (i % 256))

/-- A machine whose only file is the video `/videos/a.mp4` with `sampleContent`. -/
def sampleFiles : FileSys :=
  fun p => if p = "/videos/a.mp4".toList then some sampleContent else none

/-- A GET request for the stream of `a.mp4` with the given Range header. -/
def sampleRequest (range : GoString) : Request :=
  { Method := "GET".toList, Range := range, queryPath := "a.mp4".toList, queryLang := [] }

/-! ## Notions used to state the path-containment properties -/

/-- A path element that `filepath.Clean` keeps as it is: not empty, without a
separator, and neither `.` nor `..`. -/
def NormalElem (e : GoString) : Prop :=
  e ≠ [] ∧ Separator ∉ e ∧ e ≠ ['.'] ∧ e ≠ dotdot

/-- The resolved path `full` is at or beneath the directory `root`: it is `root`
itself, or it starts with `root` followed by a path separator. -/
def staysWithin (root full : GoString) : Bool :=
  decide (full = root) || HasPrefix full (root ++ [Separator])

/-- The path starts with a separator. -/
def isRooted (path : GoString) : Bool :=
  match path with
  | [] => false
  | c :: _ => c = Separator

/-- The `..` segments of `path` climb above the directory it is relative to: the
cleaned path starts with a `..` element. -/
def climbsAbove (path : GoString) : Bool :=
  decide ((cleanElems (isRooted path) path).head? = some dotdot)

/-- A GET request on a video endpoint for the query path `p` and language `en`. -/
def videoRequest (p : GoString) : Request :=
  { Method := "GET".toList, Range := [], queryPath := p, queryLang := "en".toList }

/-- No two entries of the same kind (directory, or not) have names that are
equal up to letter case, that is, equal after `strings.ToLower`. -/
def caseDistinctByKind (caseTable : Char → Char) (entries : List DirEntry) : Prop :=
  ((entries.filter (fun e => e.isDir)).map (fun e => ToLower caseTable e.name)).Nodup ∧
  ((entries.filter (fun e => !e.isDir)).map (fun e => ToLower caseTable e.name)).Nodup

/-- The contract of `sort.Slice` for the run on slices of more than 12 items:
given directory and video items, which `less` orders as a strict weak order,
the result is a permutation of the input in which no item is less than an
earlier one. -/
def SortsLongSlices (pdqsort : (Item → Item → Bool) → List Item → List Item)
    (less : Item → Item → Bool) : Prop :=
  ∀ l : List Item, 12 < l.length →
    (∀ a ∈ l, a.Type_ = "directory".toList ∨ a.Type_ = "video".toList) →
    (pdqsort less l).Perm l ∧
    (pdqsort less l).Pairwise (fun earlier later => less later earlier = false)

/-- File information of a sample video file. -/
def sampleFileInfo : FileInfo :=
  { size := 1000, modTime := "2024-01-01T00:00:00Z".toList, isDir := false }

/-- File information of a sample directory. -/
def sampleDirInfo : FileInfo :=
  { size := 4096, modTime := "2024-01-01T00:00:00Z".toList, isDir := true }

/-- Directory entries with the videos `A.mp4` and `a.mp4`, whose names differ
only in letter case, and the directory `series`. -/
def tieEntries : List DirEntry :=
  [{ name := "A.mp4".toList, isDir := false, info := some sampleFileInfo },
   { name := "a.mp4".toList, isDir := false, info := some sampleFileInfo },
   { name := "series".toList, isDir := true, info := some sampleDirInfo }]

/-- A library `/videos` that holds `tieEntries`. -/
def tieTree : DirTree where
  stat := fun p => if p = "/videos".toList then some sampleDirInfo else none
  readDir := fun p => if p = "/videos".toList then some tieEntries else none

/-- Directory entries with the videos `B.mp4` and `a.mp4`, in the byte order of
their names, and the directory `series`. -/
def plainEntries : List DirEntry :=
  [{ name := "B.mp4".toList, isDir := false, info := some sampleFileInfo },
   { name := "a.mp4".toList, isDir := false, info := some sampleFileInfo },
   { name := "series".toList, isDir := true, info := some sampleDirInfo }]

/-- A library `/videos` that holds `plainEntries`. -/
def plainTree : DirTree where
  stat := fun p => if p = "/videos".toList then some sampleDirInfo else none
  readDir := fun p => if p = "/videos".toList then some plainEntries else none

/-- The listing of `plainTree`: the directory `series`, then `a.mp4`, then `B.mp4`. -/
def plainListing : List Item :=
  [{ Name := "series".toList, Path := "series".toList, FullPath := "/videos/series".toList,
     Type_ := "directory".toList, Size := 0, Duration := 0,
     UpdatedAt := "2024-01-01T00:00:00Z".toList },
   { Name := "a.mp4".toList, Path := "a.mp4".toList, FullPath := "/videos/a.mp4".toList,
     Type_ := "video".toList, Size := 1000, Duration := 0,
     UpdatedAt := "2024-01-01T00:00:00Z".toList },
   { Name := "B.mp4".toList, Path := "B.mp4".toList, FullPath := "/videos/B.mp4".toList,
     Type_ := "video".toList, Size := 1000, Duration := 0,
     UpdatedAt := "2024-01-01T00:00:00Z".toList }]

/-! ## `video.GetInfo` and its cache -/

/-- The struct `video.SubtitleInfo`. -/
structure SubtitleInfo where
  Language : GoString
  Title : GoString
  StreamIndex : Int
  Codec : GoString
  deriving DecidableEq, Repr

/-- The struct `video.VideoInfo`. `Duration` is a `float64` number of seconds in
the source; `GetInfo` only carries the value, here an integer. -/
structure VideoInfo where
  Duration : Int
  Width : Int
  Height : Int
  Bitrate : Int
  Format : GoString
  Subtitles : List SubtitleInfo
  deriving DecidableEq, Repr

/-- One stream of the data `ffprobe.GetProbeData` returns, as far as `GetInfo`
reads it; `TagLanguage` is `stream.Tags.Language`. -/
structure ProbeStream where
  Index : Int
  CodecName : GoString
  CodecType : GoString
  Width : Int
  Height : Int
  TagLanguage : GoString
  deriving DecidableEq, Repr

/-- The data `ffprobe.GetProbeData` returns, as far as `GetInfo` reads it: the
fields `FormatName`, `DurationSeconds` and `BitRate` of `data.Format`, and the streams. -/
structure ProbeData where
  FormatName : GoString
  DurationSeconds : Int
  BitRate : GoString
  Streams : List ProbeStream
  deriving DecidableEq, Repr

/-- The struct `cacheEntry`: `info` is the pointer `*VideoInfo`, an address in
the heap of `VideoState`; `timestamp` is a time in nanoseconds. -/
structure cacheEntry where
  info : Nat
  timestamp : Int
  deriving DecidableEq, Repr

/-- The state of package `video`: the `VideoInfo` structs allocated so far (a
pointer is an index into `heap`), the map `cache`, and, for the record, the
paths the probe was invoked on, in order. -/
structure VideoState where
  heap : List VideoInfo
  cache : List (GoString × cacheEntry)
  probeCalls : List GoString
  deriving DecidableEq, Repr

/-- The map read `cache[path]`. -/
def cacheGet (cache : List (GoString × cacheEntry)) (path : GoString) : Option cacheEntry :=
  (cache.find? (fun kv => kv.1 = path)).map (fun kv => kv.2)

/-- The map write `cache[path] = entry`. -/
def cacheSet (cache : List (GoString × cacheEntry)) (path : GoString) (entry : cacheEntry) :
    List (GoString × cacheEntry) :=
  (path, entry) :: cache.filter (fun kv => kv.1 ≠ path)

/-- The variable `cacheDuration`: `1 * time.Hour`, in nanoseconds. -/
def cacheDuration : Int := 3600 * 1000000000

/-- Go `time.Since(t)` read at the time `now`: the difference in nanoseconds,
saturated to the range of `time.Duration`. -/
def timeSince (now t : Int) : Int :=
  if now - t > 2 ^ 63 - 1 then 2 ^ 63 - 1
  else if now - t < -(2 ^ 63) then -(2 ^ 63)
  else now - t

/-- The loop of `GetInfo` over `data.Streams`: a video stream sets the width and
height, a subtitle stream appends a subtitle track. -/
def fillStreams (info : VideoInfo) (streams : List ProbeStream) : VideoInfo :=
  match streams with
  | [] => info
  | stream :: rest =>
    if stream.CodecType = "video".toList then
      fillStreams { info with Width := stream.Width, Height := stream.Height } rest
    else if stream.CodecType = "subtitle".toList then
      let lang := if stream.TagLanguage ≠ [] then stream.TagLanguage else "und".toList
      let subtitle : SubtitleInfo :=
        { StreamIndex := stream.Index, Codec := stream.CodecName, Language := lang, Title := [] }
      fillStreams { info with Subtitles := info.Subtitles ++ [subtitle] } rest
    else fillStreams info rest

/-- The struct `GetInfo` allocates from the probe data, before the loop over the
streams. `sscanInt` is what `fmt.Sscanf(s, "%d", &bitrate)` leaves in `bitrate`. -/
def newVideoInfo (sscanInt : GoString → Int) (data : ProbeData) : VideoInfo :=
  let bitrate : Int := if data.BitRate ≠ [] then sscanInt data.BitRate else 0
  { Duration := data.DurationSeconds, Format := data.FormatName, Bitrate := bitrate,
    Width := 0, Height := 0, Subtitles := [] }

/-- Embedding of `GetInfo(path string)` in `pkg/video/video.go`, one call run on
its own. `probe` is `ffprobe.GetProbeData` (error text or data), `tCheck` the
clock when the cache is checked and `tStore` the clock `time.Now()` when the
entry is stored. Returns the new state and the pointer or error returned. -/
def GetInfo (probe : GoString → Except GoString ProbeData) (sscanInt : GoString → Int)
    (tCheck tStore : Int) (st : VideoState) (path : GoString) :
    VideoState × Except GoString Nat :=
  -- Check the cache
  let cached : Option Nat :=
    match cacheGet st.cache path with
    | some entry =>
      if timeSince tCheck entry.timestamp < cacheDuration then some entry.info else none
    | none => none
  match cached with
  | some info => (st, .ok info)
  | none =>
    -- If not in cache or expired, load from file
    let st1 : VideoState := { st with probeCalls := st.probeCalls ++ [path] }
    match probe path with
    | .error err => (st1, .error err)
    | .ok data =>
      let info := st1.heap.length
      let st2 : VideoState := { st1 with heap := st1.heap ++ [newVideoInfo sscanInt data] }
      -- Store in cache
      let st3 : VideoState :=
        { st2 with cache := cacheSet st2.cache path { info := info, timestamp := tStore } }
      -- Get video and subtitle stream info
      let filled := fillStreams (newVideoInfo sscanInt data) data.Streams
      let st4 : VideoState := { st3 with heap := st3.heap.set info filled }
      (st4, .ok info)

/-- The empty state of package `video` at process start. -/
def emptyVideoState : VideoState := { heap := [], cache := [], probeCalls := [] }

/-- Probe data of a sample video: 1280x720 with an English subtitle track. -/
def sampleProbeData : ProbeData :=
  { FormatName := "matroska".toList, DurationSeconds := 90, BitRate := "800000".toList,
    Streams :=
      [{ Index := 0, CodecName := "h264".toList, CodecType := "video".toList,
         Width := 1280, Height := 720, TagLanguage := [] },
       { Index := 2, CodecName := "subrip".toList, CodecType := "subtitle".toList,
         Width := 0, Height := 0, TagLanguage := "en".toList }] }

/-- A probe that succeeds on `/videos/a.mkv` only. -/
def sampleProbe (path : GoString) : Except GoString ProbeData :=
  if path = "/videos/a.mkv".toList then .ok sampleProbeData else .error "no such file".toList

/-- The metadata `GetInfo` builds from `sampleProbeData`. -/
def sampleVideoInfo : VideoInfo :=
  { Duration := 90, Width := 1280, Height := 720, Bitrate := 800000,
    Format := "matroska".toList,
    Subtitles := [{ Language := "en".toList, Title := [], StreamIndex := 2,
                    Codec := "subrip".toList }] }

/-! ## `video.GenerateThumbnail` -/

/-- The variable `config.ThumbnailsDir`: `filepath.Join(DefaultGeneratedDir, "thumbnails")`. -/
def ThumbnailsDir : GoString := Join ["data".toList, "thumbnails".toList]

/-- What `os.Stat` reports for a path: a file is there, or the error is a
not-exist error (`os.IsNotExist`), or it is another error (permission denied,
not a directory). -/
inductive StatResult where
  | found
  | notExist
  | otherError
  deriving DecidableEq, Repr

/-- The disk and the external tool as `GenerateThumbnail` sees them: what
`os.Stat` reports for a path, and, for the record, the argument lists of the
runs of `ffmpeg` so far, in order. -/
structure ThumbState where
  stat : GoString → StatResult
  ffmpegCalls : List (List GoString)

/-- The path of the thumbnail of a video: `filepath.Join(config.ThumbnailsDir,
filepath.Base(videoPath)+".jpg")`. -/
def thumbnailPath (videoPath : GoString) : GoString :=
  Join [ThumbnailsDir, Base videoPath ++ ".jpg".toList]

/-- The arguments `GenerateThumbnail` passes to `ffmpeg`. -/
def thumbnailArgs (videoPath : GoString) : List GoString :=
  ["-v".toList, "error".toList,
   "-ss".toList, "10".toList,
   "-i".toList, videoPath,
   "-frames:v".toList, "1".toList,
   "-q:v".toList, "2".toList,
   "-vf".toList, "scale=320:-1".toList,
   "-y".toList,
   thumbnailPath videoPath]

/-- Embedding of `GenerateThumbnail(videoPath string)` in `pkg/video/thumbnail.go`.
`ffmpeg n args` tells whether the run number `n` of the tool (the runs are
counted from 0), started with the arguments `args`, succeeds: each run has its
own outcome. After a successful run the output file exists. Returns the new
state and the path returned (the error returned is always nil). -/
def GenerateThumbnail (ffmpeg : Nat → List GoString → Bool) (st : ThumbState)
    (videoPath : GoString) : ThumbState × GoString :=
  -- Check if video file exists
  if st.stat videoPath = StatResult.notExist then (st, "/static/img/no-preview.jpg".toList)
  else
    -- Use generated thumbnails directory
    let thumbPath := thumbnailPath videoPath
    -- Generate thumbnail using ffmpeg
    let run := st.ffmpegCalls.length
    let st1 : ThumbState := { st with ffmpegCalls := st.ffmpegCalls ++ [thumbnailArgs videoPath] }
    if !ffmpeg run (thumbnailArgs videoPath) then (st1, "/static/img/no-preview.jpg".toList)
    else
      ({ st1 with stat := fun p => if p = thumbPath then StatResult.found else st1.stat p },
        "/thumbnails/".toList ++ Base thumbPath)

/-- A disk that holds the video `/videos/a.mp4` and already its thumbnail
`data/thumbnails/a.mp4.jpg`; no run of `ffmpeg` yet. -/
def thumbnailPresent : ThumbState where
  stat := fun p =>
    if p = "/videos/a.mp4".toList ∨ p = "data/thumbnails/a.mp4.jpg".toList
    then StatResult.found else StatResult.notExist
  ffmpegCalls := []

/-- A disk on which `os.Stat` of `/private/a.mp4` fails with permission denied
and every other path does not exist; no run of `ffmpeg` yet. -/
def videoUnreadable : ThumbState where
  stat := fun p =>
    if p = "/private/a.mp4".toList then StatResult.otherError else StatResult.notExist
  ffmpegCalls := []

/-! ## Samples with names above ASCII -/

/-- A case table that knows the capital `É` (U+00C9), which it sends to `é`
(U+00E9), as Unicode's table does; every other rune stays. -/
def latinCaseTable : Char → Char :=
  fun c => if c.toNat = 201 then Char.ofNat 233 else c

/-- Directory entries with the videos `É.mp4` (U+00C9) and `à.mp4` (U+00E0), in
the byte order of their names. -/
def accentEntries : List DirEntry :=
  [{ name := Char.ofNat 201 :: ".mp4".toList, isDir := false, info := some sampleFileInfo },
   { name := Char.ofNat 224 :: ".mp4".toList, isDir := false, info := some sampleFileInfo }]

/-- A library `/videos` that holds `accentEntries`. -/
def accentTree : DirTree where
  stat := fun p => if p = "/videos".toList then some sampleDirInfo else none
  readDir := fun p => if p = "/videos".toList then some accentEntries else none

/-- Directory entries with the videos `É.mp4` (U+00C9) and `é.mp4` (U+00E9), whose
names differ only in letter case. -/
def accentTieEntries : List DirEntry :=
  [{ name := Char.ofNat 201 :: ".mp4".toList, isDir := false, info := some sampleFileInfo },
   { name := Char.ofNat 233 :: ".mp4".toList, isDir := false, info := some sampleFileInfo }]

/-! ## The handlers of the `browse` endpoints -/

/-- What a browse handler run did: the response it wrote and the arguments it
passed, in order, to `browse.List`. -/
structure BrowseRun where
  response : ResponseWriter
  listCalls : List GoString
  deriving DecidableEq, Repr

/-- Embedding of `handleBrowseHTML` in `cmd/handlers.go`. `renderHTML` is the HTML
text the handler builds from the path and the items (its formatting of the
`float64` durations is outside this embedding). -/
def handleBrowseHTML (caseTable : Char → Char)
    (pdqsort : (Item → Item → Bool) → List Item → List Item)
    (BaseDir : GoString) (wd : Option GoString) (tree : DirTree)
    (getDuration : GoString → Option Int) (arrive : List Item → List Item)
    (renderHTML : GoString → List Item → GoString) (r : Request) : BrowseRun :=
  let w := newResponseWriter r
  let path := if r.queryPath = [] then ['/'] else r.queryPath
  if Ext path ≠ [] then
    { response := httpError w "Cannot list a file".toList 400, listCalls := [] }
  else
    match ListDir caseTable pdqsort BaseDir wd tree getDuration arrive path with
    | .error err =>
      if err = ListError.ErrInvalidPath then
        { response := httpError w "Invalid path".toList 400, listCalls := [path] }
      else
        { response := httpError w "Internal server error".toList 500, listCalls := [path] }
    | .ok items =>
      let w1 := w.headerSet "Content-Type".toList "text/html".toList
      { response := w1.Write (renderHTML path items), listCalls := [path] }

/-- Embedding of `handleBrowseAPI` in `cmd/handlers.go`. `encode` is the JSON
encoding of the reply built from the path and the items. -/
def handleBrowseAPI (caseTable : Char → Char)
    (pdqsort : (Item → Item → Bool) → List Item → List Item)
    (BaseDir : GoString) (wd : Option GoString) (tree : DirTree)
    (getDuration : GoString → Option Int) (arrive : List Item → List Item)
    (encode : GoString → List Item → GoString) (r : Request) : BrowseRun :=
  let w := newResponseWriter r
  let path := if r.queryPath = [] then ['/'] else r.queryPath
  let fullPath := Join [BaseDir, path]
  match ListDir caseTable pdqsort BaseDir wd tree getDuration arrive fullPath with
  | .error err =>
    if err = ListError.ErrInvalidPath then
      { response := httpError w "Invalid path".toList 400, listCalls := [fullPath] }
    else
      { response := httpError w "Internal server error".toList 500, listCalls := [fullPath] }
  | .ok items =>
    let w1 := w.headerSet "Content-Type".toList "application/json".toList
    { response := w1.Write (encode path items), listCalls := [fullPath] }

/-- A GET request on a browse endpoint for the query path `p`. -/
def browseRequest (p : GoString) : Request :=
  { Method := "GET".toList, Range := [], queryPath := p, queryLang := [] }

/-- A library `/videos` that holds `plainEntries` and the empty directory `/videos/series`. -/
def libraryTree : DirTree where
  stat := fun p =>
    if p = "/videos".toList ∨ p = "/videos/series".toList then some sampleDirInfo else none
  readDir := fun p =>
    if p = "/videos".toList then some plainEntries
    else if p = "/videos/series".toList then some []
    else none

/-! # Theorems -/

/-! ## Strings -/

theorem isPrefixOf_append_self (pre x : GoString) : pre.isPrefixOf (pre ++ x) = true := by
  induction pre with
  | nil => simp [List.isPrefixOf]
  | cons c cs ih => simp [List.isPrefixOf, ih]

theorem TrimPrefix_append (pre x : GoString) : TrimPrefix (pre ++ x) pre = x := by
  simp [TrimPrefix, HasPrefix, isPrefixOf_append_self]

theorem Split_ne_nil (s : GoString) (sep : Char) : Split s sep ≠ [] := by
  cases s with
  | nil => simp [Split]
  | cons c cs =>
    unfold Split
    split
    · simp
    · split <;> simp

theorem Split_of_not_mem (s : GoString) (sep : Char) (h : sep ∉ s) : Split s sep = [s] := by
  induction s with
  | nil => simp [Split]
  | cons c cs ih =>
    have hc : c ≠ sep := fun e => h (by simp [e])
    have hcs : sep ∉ cs := fun e => h (by simp [e])
    simp [Split, hc, ih hcs]

theorem Split_append_sep (a b : GoString) (sep : Char) (h : sep ∉ a) :
    Split (a ++ sep :: b) sep = a :: Split b sep := by
  induction a with
  | nil => simp [Split]
  | cons c cs ih =>
    have hc : c ≠ sep := fun e => h (by simp [e])
    have hcs : sep ∉ cs := fun e => h (by simp [e])
    simp [Split, hc, ih hcs]

/-- Every character of `s` other than the separator is in one of the pieces of `Split`. -/
theorem mem_Split_of_mem (s : GoString) (sep c : Char) (hc : c ∈ s) (hne : c ≠ sep) :
    ∃ p ∈ Split s sep, c ∈ p := by
  induction s with
  | nil => simp at hc
  | cons d ds ih =>
    by_cases hd : d = sep
    · have hcds : c ∈ ds := by
        rcases List.mem_cons.1 hc with h | h
        · exact absurd (h.trans hd) hne
        · exact h
      obtain ⟨p, hp, hcp⟩ := ih hcds
      exact ⟨p, by simp [Split, hd, hp], hcp⟩
    · rcases List.mem_cons.1 hc with h | h
      · cases hs : Split ds sep with
        | nil => exact absurd hs (Split_ne_nil ds sep)
        | cons p ps => exact ⟨d :: p, by simp [Split, hd, hs], by simp [h]⟩
      · obtain ⟨p, hp, hcp⟩ := ih h
        cases hs : Split ds sep with
        | nil => exact absurd hs (Split_ne_nil ds sep)
        | cons q qs =>
          rw [hs] at hp
          rcases List.mem_cons.1 hp with e | e
          · exact ⟨d :: q, by simp [Split, hd, hs], by simp [← e, hcp]⟩
          · exact ⟨p, by simp [Split, hd, hs, e], hcp⟩

/-! ## Decimal numerals -/

theorem foldl_decimal_ge (ds : GoString) (acc : Nat) :
    acc ≤ ds.foldl (fun a c => a * 10 + (c.toNat - 48)) acc := by
  induction ds generalizing acc with
  | nil => simp
  | cons c cs ih =>
    simp only [List.foldl_cons]
    have := ih (acc * 10 + (c.toNat - 48))
    omega

/-- On a string of digits whose value fits `uint64` the digit loop returns the value. -/
theorem parseUintLoop_digits (ds : GoString) (acc : Nat)
    (hd : ∀ c ∈ ds, 48 ≤ c.toNat ∧ c.toNat ≤ 57)
    (hv : ds.foldl (fun a c => a * 10 + (c.toNat - 48)) acc ≤ maxUint64) :
    parseUintLoop acc ds = .ok (ds.foldl (fun a c => a * 10 + (c.toNat - 48)) acc) := by
  induction ds generalizing acc with
  | nil => simp [parseUintLoop]
  | cons c cs ih =>
    have hc := hd c (by simp)
    simp only [List.foldl_cons] at hv ⊢
    have hge := foldl_decimal_ge cs (acc * 10 + (c.toNat - 48))
    have hmax : maxUint64 = 18446744073709551615 := by decide
    rw [hmax] at hv
    have h1 : ¬ (acc ≥ maxUint64 / 10 + 1) := by rw [hmax]; omega
    have h2 : (acc * 10 + (c.toNat - 48)) % 2 ^ 64 = acc * 10 + (c.toNat - 48) := by
      apply Nat.mod_eq_of_lt
      have : (2:Nat) ^ 64 = 18446744073709551616 := by norm_num
      omega
    have h3 : ¬ (acc * 10 + (c.toNat - 48) < acc * 10 ∨
        acc * 10 + (c.toNat - 48) > maxUint64) := by rw [hmax]; omega
    rw [parseUintLoop]
    simp only [hc, and_self, if_true, h1, if_false, h2, h3]
    exact ih _ (fun x hx => hd x (by simp [hx])) (by rw [hmax]; exact hv)

theorem wrapInt64_of_range (x : Int) (h1 : -(2 ^ 63) ≤ x) (h2 : x < 2 ^ 63) : wrapInt64 x = x := by
  unfold wrapInt64
  have : (x + 2 ^ 63) % 2 ^ 64 = x + 2 ^ 63 := by
    apply Int.emod_eq_of_lt <;> omega
  omega

/-- A decimal numeral below `2^63` parses to its value. -/
theorem ParseInt_decimal (ds : GoString) (n : Nat) (h : IsDecimal ds n) (hn : n < 2 ^ 63) :
    ParseInt ds = .ok (n : Int) := by
  obtain ⟨hne, hd, hv⟩ := h
  cases ds with
  | nil => exact absurd rfl hne
  | cons c cs =>
    have hc := hd c (by simp)
    have hplus : c ≠ '+' := by
      intro e; rw [e] at hc; revert hc; decide
    have hminus : c ≠ '-' := by
      intro e; rw [e] at hc; revert hc; decide
    have hu : ParseUint (c :: cs) = .ok n := by
      unfold ParseUint
      simp only [reduceCtorEq, if_false]
      rw [parseUintLoop_digits (c :: cs) 0 hd, hv]
      rw [hv]; unfold maxUint64; omega
    unfold ParseInt
    simp only [hplus, hminus, or_self, if_false, hu, decide_False]
    have hlt : ¬ ((n : Nat) ≥ 2 ^ 63) := by omega
    simp only [Bool.not_false, Bool.true_and, decide_eq_true_eq, hlt, if_false, Bool.false_and,
      Bool.false_eq_true]
    rw [wrapInt64_of_range] <;> omega

/-- The characters of a string that `ParseInt` accepts are signs and digits. -/
theorem parseUintLoop_ok_digits (s : GoString) (acc v : Nat) (h : parseUintLoop acc s = .ok v) :
    ∀ c ∈ s, 48 ≤ c.toNat ∧ c.toNat ≤ 57 := by
  induction s generalizing acc with
  | nil => simp
  | cons c cs ih =>
    rw [parseUintLoop] at h
    by_cases hc : 48 ≤ c.toNat ∧ c.toNat ≤ 57
    · simp only [hc, and_self, if_true] at h
      split at h
      · cases h
      · split at h
        · cases h
        · intro x hx
          rcases List.mem_cons.1 hx with e | e
          · rw [e]; exact hc
          · exact ih _ h x e
    · simp only [hc, if_false] at h
      cases h

theorem ParseInt_ok_chars (s : GoString) (v : Int) (h : ParseInt s = .ok v) :
    ∀ c ∈ s, c = '+' ∨ c = '-' ∨ (48 ≤ c.toNat ∧ c.toNat ≤ 57) := by
  cases s with
  | nil => simp
  | cons c rest =>
    unfold ParseInt at h
    simp only at h
    have key : ∀ body : GoString, (∃ u, ParseUint body = .ok u) →
        ∀ x ∈ body, 48 ≤ x.toNat ∧ x.toNat ≤ 57 := by
      intro body ⟨u, hu⟩
      unfold ParseUint at hu
      split at hu
      · cases hu
      · exact parseUintLoop_ok_digits body 0 u hu
    have hbody : ∃ u, ParseUint (if c = '+' ∨ c = '-' then rest else c :: rest) = .ok u := by
      cases hp : ParseUint (if c = '+' ∨ c = '-' then rest else c :: rest) with
      | ok u => exact ⟨u, rfl⟩
      | error e =>
        rw [hp] at h
        cases e with
        | errSyntax => simp at h
        | errRange =>
          exfalso
          simp only [maxUint64] at h
          by_cases hneg : c = '-'
          · simp [hneg] at h
          · simp [hneg] at h
    have hall := key _ hbody
    intro x hx
    by_cases hs : c = '+' ∨ c = '-'
    · simp only [hs, if_true] at hall
      rcases List.mem_cons.1 hx with e | e
      · rcases hs with hs | hs
        · left; rw [e, hs]
        · right; left; rw [e, hs]
      · right; right; exact hall x e
    · simp only [hs, if_false] at hall
      right; right; exact hall x hx

/-! ## `FormatInt` prints decimal numerals -/

theorem digitChar_toNat (d : Nat) (hd : d < 10) : (Char.ofNat (48 + d)).toNat = 48 + d := by
  interval_cases d <;> decide

theorem formatDigits_decimal (fuel n : Nat) (h : n < fuel) :
    formatDigits fuel n ≠ [] ∧
    (∀ c ∈ formatDigits fuel n, 48 ≤ c.toNat ∧ c.toNat ≤ 57) ∧
    (formatDigits fuel n).foldl (fun acc c => acc * 10 + (c.toNat - 48)) 0 = n := by
  induction fuel generalizing n with
  | zero => omega
  | succ f ih =>
    unfold formatDigits
    by_cases hn : n < 10
    · simp only [hn, if_true]
      have := digitChar_toNat n hn
      refine ⟨by simp, ?_, ?_⟩
      · intro c hc
        simp only [List.mem_singleton] at hc
        rw [hc, this]; omega
      · simp only [List.foldl_cons, List.foldl_nil, this]; omega
    · simp only [hn, if_false]
      have hlt : n / 10 < f := by omega
      obtain ⟨_, h2, h3⟩ := ih (n / 10) hlt
      have hd := digitChar_toNat (n % 10) (Nat.mod_lt n (by decide))
      refine ⟨by simp, ?_, ?_⟩
      · intro c hc
        rcases List.mem_append.1 hc with e | e
        · exact h2 c e
        · simp only [List.mem_singleton] at e
          rw [e, hd]; omega
      · rw [List.foldl_append, h3]
        simp only [List.foldl_cons, List.foldl_nil, hd]
        omega

/-- What `FormatInt` prints for a natural number is a decimal numeral of that number. -/
theorem FormatInt_isDecimal (n : Nat) : IsDecimal (FormatInt (n : Int)) n := by
  unfold FormatInt IsDecimal
  have hneg : ¬ ((n : Int) < 0) := by omega
  simp only [hneg, if_false, Int.natAbs_ofNat]
  exact formatDigits_decimal (n + 1) n (by omega)

/-! ## `parseRange` -/

theorem digits_not_mem_dash (ds : GoString) (hd : ∀ c ∈ ds, 48 ≤ c.toNat ∧ c.toNat ≤ 57) :
    '-' ∉ ds := by
  intro h
  have := hd _ h
  revert this
  decide

theorem ParseInt_error_of_comma (p : GoString) (h : ',' ∈ p) : ∃ e, ParseInt p = .error e := by
  cases hp : ParseInt p with
  | error e => exact ⟨e, rfl⟩
  | ok v =>
    exfalso
    have := ParseInt_ok_chars p v hp _ h
    revert this
    decide

theorem comma_mem_TrimPrefix (h : GoString) (hc : ',' ∈ h) :
    ',' ∈ TrimPrefix h "bytes=".toList := by
  unfold TrimPrefix HasPrefix
  by_cases hp : "bytes=".toList.isPrefixOf h = true
  · simp only [hp, if_true]
    obtain ⟨t, ht⟩ := List.isPrefixOf_iff_prefix.1 hp
    have hd : List.drop "bytes=".toList.length h = t := by
      rw [← ht]; simp
    rw [hd]
    rw [← ht] at hc
    rcases List.mem_append.1 hc with h1 | h1
    · exact absurd h1 (by decide)
    · exact h1
  · simp only [hp, Bool.false_eq_true, if_false]
    exact hc

/-- C2: for a file size of at least 1, `parseRange` fills in an omitted bound:
`bytes=<s>-` for a decimal `s` within the file gives `(s, fileSize-1)`, and
`bytes=-<e>` for a decimal `e` within the file gives `(0, e)`, both without error. -/
theorem parseRange_omitted_bound (fileSize : Int) (ds : GoString) (n : Nat)
    (hsize : 1 ≤ fileSize) (hint : fileSize < 2 ^ 63)
    (hdec : IsDecimal ds n) (hn : (n : Int) ≤ fileSize - 1) :
    parseRange ("bytes=".toList ++ ds ++ ['-']) fileSize = .ok ((n : Int), fileSize - 1) ∧
    parseRange ("bytes=-".toList ++ ds) fileSize = .ok (0, (n : Int)) := by
  have hdash := digits_not_mem_dash ds hdec.2.1
  have hne : ds ≠ [] := hdec.1
  have hparse : ParseInt ds = .ok (n : Int) := ParseInt_decimal ds n hdec (by omega)
  have hwrap : wrapInt64 (fileSize - 1) = fileSize - 1 :=
    wrapInt64_of_range _ (by omega) (by omega)
  constructor
  · have e1 : "bytes=".toList ++ ds ++ ['-'] = "bytes=".toList ++ (ds ++ '-' :: []) := by simp
    have hs : Split (ds ++ '-' :: []) '-' = [ds, []] := by
      rw [Split_append_sep ds [] '-' hdash]; simp [Split]
    unfold parseRange
    rw [e1, TrimPrefix_append, hs]
    simp only [hne, if_false, hparse, if_true, hwrap]
    have : ¬ ((n : Int) < 0 ∨ fileSize - 1 ≥ fileSize ∨ (n : Int) > fileSize - 1) := by omega
    simp only [this, if_false]
  · have e1 : "bytes=-".toList ++ ds = "bytes=".toList ++ ('-' :: ds) := rfl
    have hs : Split ('-' :: ds) '-' = [[], ds] := by
      have := Split_append_sep [] ds '-' (by simp)
      simp only [List.nil_append] at this
      rw [this, Split_of_not_mem ds '-' hdash]
    unfold parseRange
    rw [e1, TrimPrefix_append, hs]
    simp only [hne, if_false, hparse, if_true]
    have : ¬ ((0 : Int) < 0 ∨ (n : Int) ≥ fileSize ∨ (0 : Int) > (n : Int)) := by omega
    simp only [this, if_false]

/-- Witness of C2 on a 1000-byte file: `bytes=900-` gives `(900, 999)` and `bytes=-900`
gives `(0, 900)`. -/
theorem parseRange_omitted_bound_witness :
    parseRange "bytes=900-".toList 1000 = .ok (900, 999) ∧
    parseRange "bytes=-900".toList 1000 = .ok (0, 900) :=
  parseRange_omitted_bound 1000 "900".toList 900 (by decide) (by decide)
    ⟨by decide, by decide, by decide⟩ (by decide)

/-- C3: whenever `parseRange` returns without error, its result satisfies
`0 ≤ start ≤ end ≤ fileSize - 1`; in particular on an empty file (or any file
size below 1) every header is answered with an error. -/
theorem parseRange_ok_within_file (h : GoString) (fileSize : Int) :
    (∀ start end_ : Int, parseRange h fileSize = .ok (start, end_) →
      0 ≤ start ∧ start ≤ end_ ∧ end_ ≤ fileSize - 1) ∧
    (fileSize ≤ 0 → ∃ err, parseRange h fileSize = .error err) := by
  have main : ∀ start end_ : Int, parseRange h fileSize = .ok (start, end_) →
      0 ≤ start ∧ start ≤ end_ ∧ end_ ≤ fileSize - 1 := by
    intro start end_ hok
    unfold parseRange at hok
    split at hok
    · split at hok
      · cases hok
      · split at hok
        · cases hok
        · split at hok
          · cases hok
          · rename_i hcond
            injection hok with hok
            injection hok with h1 h2
            subst h1; subst h2
            omega
    · cases hok
  refine ⟨main, ?_⟩
  intro hsz
  cases hp : parseRange h fileSize with
  | error e => exact ⟨e, rfl⟩
  | ok v =>
    obtain ⟨s, e⟩ := v
    have := main s e hp
    omega

/-- Witness of C3: `bytes=0-99` on a 1000-byte file is accepted and lies within
the file, and `bytes=2000-3000` on it is an error. -/
theorem parseRange_ok_within_file_witness :
    parseRange "bytes=0-99".toList 1000 = .ok (0, 99) ∧
    ((0 : Int) ≤ 0 ∧ (0 : Int) ≤ 99 ∧ (99 : Int) ≤ 1000 - 1) ∧
    parseRange "bytes=2000-3000".toList 1000 = .error .invalidValues :=
  ⟨by decide, (parseRange_ok_within_file "bytes=0-99".toList 1000).1 0 99 (by decide),
    by decide⟩

/-- C4: a header that contains a comma (a multi-range request) is answered with
an error, whatever the file size. -/
theorem parseRange_comma_error (h : GoString) (fileSize : Int) (hc : ',' ∈ h) :
    ∃ err, parseRange h fileSize = .error err := by
  have ht := comma_mem_TrimPrefix h hc
  obtain ⟨p, hp, hcp⟩ := mem_Split_of_mem _ '-' ',' ht (by decide)
  unfold parseRange
  split
  · rename_i p0 p1 hsplit
    rw [hsplit] at hp
    have hpne : p ≠ [] := by intro e; rw [e] at hcp; simp at hcp
    obtain ⟨e, he⟩ := ParseInt_error_of_comma p hcp
    simp only [List.mem_cons, List.mem_singleton, List.not_mem_nil, or_false] at hp
    rcases hp with h0 | h1
    · subst h0
      simp only [hpne, if_false, he]
      exact ⟨_, rfl⟩
    · subst h1
      split
      · exact ⟨_, rfl⟩
      · simp only [hpne, if_false, he]
        exact ⟨_, rfl⟩
  · exact ⟨_, rfl⟩

/-- Witness of C4: the multi-range header `bytes=0-99,200-299` is an error. -/
theorem parseRange_comma_error_witness :
    ',' ∈ "bytes=0-99,200-299".toList ∧
    ∃ err, parseRange "bytes=0-99,200-299".toList 1000 = .error err :=
  ⟨by decide, parseRange_comma_error "bytes=0-99,200-299".toList 1000 (by decide)⟩

/-- C5, counterexample: on a 1000-byte file the header `bytes=-`, which omits
both bounds, is accepted as the range `(0, 999)`; it is not an error. -/
theorem parseRange_both_omitted_accepted :
    parseRange "bytes=-".toList 1000 = .ok (0, 999) ∧
    ¬ ∃ err, parseRange "bytes=-".toList 1000 = .error err := by
  have h : parseRange "bytes=-".toList 1000 = .ok (0, 999) := by decide
  refine ⟨h, ?_⟩
  rintro ⟨err, he⟩
  rw [h] at he
  cases he

/-- C5, amended: with both bounds omitted both defaults apply. For a file size
of at least 1 the header `bytes=-` gives the whole file `(0, fileSize-1)` without
error; it is an error exactly when the file size is below 1. -/
theorem parseRange_both_omitted (fileSize : Int)
    (hlo : -(2 ^ 63) ≤ fileSize) (hhi : fileSize < 2 ^ 63) :
    parseRange "bytes=-".toList fileSize =
      if 1 ≤ fileSize then .ok (0, fileSize - 1) else .error .invalidValues := by
  have hs : Split (TrimPrefix "bytes=-".toList "bytes=".toList) '-' = [[], []] := by decide
  unfold parseRange
  rw [hs]
  simp only [if_true]
  by_cases h1 : 1 ≤ fileSize
  · have hwrap : wrapInt64 (fileSize - 1) = fileSize - 1 :=
      wrapInt64_of_range _ (by omega) (by omega)
    have : ¬ ((0 : Int) < 0 ∨ fileSize - 1 ≥ fileSize ∨ (0 : Int) > fileSize - 1) := by omega
    simp only [hwrap, this, if_false, h1, if_true]
  · have : ((0 : Int) < 0 ∨ wrapInt64 (fileSize - 1) ≥ fileSize ∨
        (0 : Int) > wrapInt64 (fileSize - 1)) := by
      by_cases hmin : fileSize = -(2 ^ 63)
      · right; left
        subst hmin
        decide
      · have hwrap : wrapInt64 (fileSize - 1) = fileSize - 1 :=
          wrapInt64_of_range _ (by omega) (by omega)
        rw [hwrap]; right; right; omega
    simp only [this, if_true, h1, if_false]

/-- Witness of C5 as amended, on a 1000-byte file. -/
theorem parseRange_both_omitted_witness :
    parseRange "bytes=-".toList 1000 =
      if (1 : Int) ≤ 1000 then .ok (0, 1000 - 1) else .error .invalidValues :=
  parseRange_both_omitted 1000 (by decide) (by decide)

/-! ## `Stream` -/

/-- A header with both bounds given as decimal numerals inside the file parses to them. -/
theorem parseRange_both_bounds (fileSize : Int) (ds de : GoString) (s e : Nat)
    (hint : fileSize < 2 ^ 63) (hs : IsDecimal ds s) (he : IsDecimal de e)
    (hse : s ≤ e) (heS : (e : Int) < fileSize) :
    parseRange ("bytes=".toList ++ ds ++ ['-'] ++ de) fileSize = .ok ((s : Int), (e : Int)) := by
  have hdash := digits_not_mem_dash ds hs.2.1
  have hdash2 := digits_not_mem_dash de he.2.1
  have hps : ParseInt ds = .ok (s : Int) := ParseInt_decimal ds s hs (by omega)
  have hpe : ParseInt de = .ok (e : Int) := ParseInt_decimal de e he (by omega)
  have e1 : "bytes=".toList ++ ds ++ ['-'] ++ de = "bytes=".toList ++ (ds ++ '-' :: de) := by simp
  have hsp : Split (ds ++ '-' :: de) '-' = [ds, de] := by
    rw [Split_append_sep ds de '-' hdash, Split_of_not_mem de '-' hdash2]
  unfold parseRange
  rw [e1, TrimPrefix_append, hsp]
  simp only [hs.1, he.1, if_false, hps, hpe]
  have : ¬ ((s : Int) < 0 ∨ (e : Int) ≥ fileSize ∨ (s : Int) > (e : Int)) := by omega
  simp only [this, if_false]

/-- C1: for a video file with content `B` of size `S` and a GET request whose
Range header is `bytes=<s>-<e>` with decimal `s`, `e` and `0 ≤ s ≤ e ≤ S-1`,
`Stream` returns no error, writes status 206, sets `Content-Range` to
`bytes s-e/S`, `Accept-Ranges` to `bytes`, `Content-Length` to `e-s+1`, and
writes as body exactly the `e-s+1` bytes `B[s..e]`. -/
theorem Stream_range_partial_content (caseTable : Char → Char) (BaseDir : GoString)
    (wd : Option GoString)
    (fsys : FileSys) (r : Request) (path fullPath content ds de : GoString) (s e : Nat)
    (hpath : validatePath BaseDir wd path = .ok fullPath)
    (hfile : fsys fullPath = some content)
    (hvideo : isVideoFile caseTable fullPath = true)
    (hsize : (content.length : Int) < 2 ^ 63)
    (hget : r.Method = "GET".toList)
    (hs : IsDecimal ds s) (he : IsDecimal de e)
    (hrange : r.Range = "bytes=".toList ++ ds ++ ['-'] ++ de)
    (hse : s ≤ e) (heS : e + 1 ≤ content.length) :
    (Stream caseTable BaseDir wd fsys (newResponseWriter r) r path).2 = none ∧
    (Stream caseTable BaseDir wd fsys (newResponseWriter r) r path).1.status = some 206 ∧
    (Stream caseTable BaseDir wd fsys (newResponseWriter r) r path).1.headerGet
        "Content-Range".toList =
      some ("bytes ".toList ++ FormatInt s ++ ['-'] ++ FormatInt e ++ ['/'] ++
        FormatInt content.length) ∧
    (Stream caseTable BaseDir wd fsys (newResponseWriter r) r path).1.headerGet
        "Accept-Ranges".toList =
      some "bytes".toList ∧
    (Stream caseTable BaseDir wd fsys (newResponseWriter r) r path).1.headerGet
        "Content-Length".toList =
      some (FormatInt ((e : Int) - s + 1)) ∧
    (Stream caseTable BaseDir wd fsys (newResponseWriter r) r path).1.body =
      (content.drop s).take (e - s + 1) := by
  have hparse := parseRange_both_bounds content.length ds de s e hsize hs he hse (by omega)
  have hne : r.Range ≠ [] := by rw [hrange]; simp
  have hw1 : wrapInt64 ((e : Int) - s) = (e : Int) - s := wrapInt64_of_range _ (by omega) (by omega)
  have hw2 : wrapInt64 ((e : Int) - s + 1) = (e : Int) - s + 1 :=
    wrapInt64_of_range _ (by omega) (by omega)
  have hn : ((e : Int) - s + 1).toNat = e - s + 1 := by omega
  have hhead : ¬ (r.Method = "HEAD".toList) := by rw [hget]; decide
  have hlen : ((content.drop s).take (e - s + 1)).length = e - s + 1 := by
    rw [List.length_take, List.length_drop]; omega
  have hchunk : (content.drop s).take (e - s + 1) ≠ [] := by
    intro h0; rw [h0] at hlen; simp at hlen
  have hS : Stream caseTable BaseDir wd fsys (newResponseWriter r) r path =
      ({ isHead := false,
         header := [("Content-Range".toList, "bytes ".toList ++ FormatInt s ++ ['-'] ++
                      FormatInt e ++ ['/'] ++ FormatInt content.length),
                    ("Accept-Ranges".toList, "bytes".toList),
                    ("Content-Length".toList, FormatInt ((e : Int) - s + 1)),
                    ("Content-Type".toList, getContentType caseTable fullPath)],
         status := some 206,
         body := (content.drop s).take (e - s + 1) }, none) := by
    unfold Stream
    rw [hpath]
    simp only [hfile, hvideo, Bool.not_true, Bool.false_eq_true, if_false, hne]
    rw [← hrange] at hparse
    rw [hparse]
    have hneg : ¬ ((s : Int) < 0) := by omega
    simp only [hneg, if_false, hw1, hw2, hn, Int.toNat_ofNat, ne_eq, hhead, not_false_eq_true,
      if_true]
    simp only [copyN, hlen, hchunk, if_false, if_true]
    have hhead2 : ¬ (r.Method = ['H', 'E', 'A', 'D']) := hhead
    simp [newResponseWriter, ResponseWriter.headerSet, ResponseWriter.WriteHeader,
      ResponseWriter.Write, hhead2]
  rw [hS]
  refine ⟨rfl, rfl, ?_, ?_, ?_, rfl⟩
  · simp [ResponseWriter.headerGet, List.find?]
  · simp [ResponseWriter.headerGet, List.find?]
  · simp [ResponseWriter.headerGet, List.find?]

set_option maxRecDepth 100000 in
/-- Witness of C1: `bytes=0-99` on the 1000-byte sample video is answered with
status 206, `Content-Range: bytes 0-99/1000`, `Content-Length: 100` and the
bytes `[0,100)` of the file. -/
theorem Stream_range_partial_content_witness :
    (Stream sampleCaseTable "/videos".toList none sampleFiles
        (newResponseWriter (sampleRequest "bytes=0-99".toList))
        (sampleRequest "bytes=0-99".toList) "a.mp4".toList).2 = none ∧
    (Stream sampleCaseTable "/videos".toList none sampleFiles
        (newResponseWriter (sampleRequest "bytes=0-99".toList))
        (sampleRequest "bytes=0-99".toList) "a.mp4".toList).1.status = some 206 ∧
    (Stream sampleCaseTable "/videos".toList none sampleFiles
        (newResponseWriter (sampleRequest "bytes=0-99".toList))
        (sampleRequest "bytes=0-99".toList) "a.mp4".toList).1.headerGet "Content-Range".toList =
      some "bytes 0-99/1000".toList ∧
    (Stream sampleCaseTable "/videos".toList none sampleFiles
        (newResponseWriter (sampleRequest "bytes=0-99".toList))
        (sampleRequest "bytes=0-99".toList) "a.mp4".toList).1.headerGet "Accept-Ranges".toList =
      some "bytes".toList ∧
    (Stream sampleCaseTable "/videos".toList none sampleFiles
        (newResponseWriter (sampleRequest "bytes=0-99".toList))
        (sampleRequest "bytes=0-99".toList) "a.mp4".toList).1.headerGet "Content-Length".toList =
      some "100".toList ∧
    (Stream sampleCaseTable "/videos".toList none sampleFiles
        (newResponseWriter (sampleRequest "bytes=0-99".toList))
        (sampleRequest "bytes=0-99".toList) "a.mp4".toList).1.body = sampleContent.take 100 :=
  Stream_range_partial_content sampleCaseTable "/videos".toList none sampleFiles
    (sampleRequest "bytes=0-99".toList) "a.mp4".toList "/videos/a.mp4".toList sampleContent
    "0".toList "99".toList 0 99 (by decide) (by decide) (by decide) (by decide) (by decide)
    ⟨by decide, by decide, by decide⟩ ⟨by decide, by decide, by decide⟩ (by decide)
    (by decide) (by decide)

/-- With a Range header that `parseRange` rejects, on an existing video file,
`Stream` writes nothing and returns the range error. -/
theorem Stream_range_error (caseTable : Char → Char) (BaseDir : GoString)
    (wd : Option GoString) (fsys : FileSys)
    (w : ResponseWriter) (r : Request) (path fullPath content : GoString) (err : RangeError)
    (hpath : validatePath BaseDir wd path = .ok fullPath)
    (hfile : fsys fullPath = some content)
    (hvideo : isVideoFile caseTable fullPath = true)
    (hrange : r.Range ≠ [])
    (hparse : parseRange r.Range content.length = .error err) :
    Stream caseTable BaseDir wd fsys w r path = (w, some (.range err)) := by
  unfold Stream
  rw [hpath]
  simp only [hfile, hvideo, Bool.not_true, Bool.false_eq_true, if_false, hrange, hparse]

set_option maxRecDepth 100000 in
/-- C6, counterexample: the request `bytes=2000-3000` on the existing 1000-byte
video is answered with status 500, not 400. -/
theorem handleVideoStream_bad_range_500 :
    (handleVideoStream sampleCaseTable "/videos".toList none sampleFiles
      (sampleRequest "bytes=2000-3000".toList)).status = some 500 ∧
    (handleVideoStream sampleCaseTable "/videos".toList none sampleFiles
      (sampleRequest "bytes=2000-3000".toList)).status ≠ some 400 := by
  decide

/-- C6, amended: for every stream request on an existing video file whose Range
header fails parsing or the bounds check, `handleVideoStream` responds with
status 500 and the line `Internal server error`, never 206 and never 400: the
handler maps only `player.ErrInvalidPath` to 400 and every error of
`parseRange` to 500. -/
theorem handleVideoStream_range_error_status (caseTable : Char → Char) (BaseDir : GoString)
    (wd : Option GoString)
    (fsys : FileSys) (r : Request) (fullPath content : GoString) (err : RangeError)
    (hq : r.queryPath ≠ [])
    (hpath : validatePath BaseDir wd r.queryPath = .ok fullPath)
    (hfile : fsys fullPath = some content)
    (hvideo : isVideoFile caseTable fullPath = true)
    (hrange : r.Range ≠ [])
    (hparse : parseRange r.Range content.length = .error err) :
    handleVideoStream caseTable BaseDir wd fsys r =
        httpError (newResponseWriter r) "Internal server error".toList 500 ∧
    (handleVideoStream caseTable BaseDir wd fsys r).status = some 500 ∧
    (handleVideoStream caseTable BaseDir wd fsys r).status ≠ some 206 ∧
    (handleVideoStream caseTable BaseDir wd fsys r).status ≠ some 400 := by
  have hS := Stream_range_error caseTable BaseDir wd fsys (newResponseWriter r) r r.queryPath
    fullPath
    content err hpath hfile hvideo hrange hparse
  have hH : handleVideoStream caseTable BaseDir wd fsys r =
      httpError (newResponseWriter r) "Internal server error".toList 500 := by
    unfold handleVideoStream
    simp only [hq, if_false, hS]
    simp
  have hst : (httpError (newResponseWriter r) "Internal server error".toList 500).status =
      some 500 := by
    simp [httpError, newResponseWriter, ResponseWriter.headerDel, ResponseWriter.headerSet,
      ResponseWriter.WriteHeader, ResponseWriter.Write]
    split <;> rfl
  rw [hH, hst]
  exact ⟨rfl, rfl, by decide, by decide⟩

set_option maxRecDepth 100000 in
/-- Witness of C6 as amended: `bytes=2000-3000` on the 1000-byte sample video. -/
theorem handleVideoStream_range_error_status_witness :
    parseRange "bytes=2000-3000".toList 1000 = .error .invalidValues ∧
    (handleVideoStream sampleCaseTable "/videos".toList none sampleFiles
      (sampleRequest "bytes=2000-3000".toList)).status = some 500 :=
  ⟨by decide,
   (handleVideoStream_range_error_status sampleCaseTable "/videos".toList none sampleFiles
      (sampleRequest "bytes=2000-3000".toList) "/videos/a.mp4".toList sampleContent
      .invalidValues (by decide) (by decide) (by decide) (by decide) (by decide)
      (by decide)).2.1⟩

/-! ## `filepath.Clean` on rooted paths -/

theorem Split_pieces_no_sep (s : GoString) (sep : Char) : ∀ p ∈ Split s sep, sep ∉ p := by
  induction s with
  | nil => simp [Split]
  | cons c cs ih =>
    by_cases hc : c = sep
    · intro p hp
      simp only [Split, hc, if_true, List.mem_cons] at hp
      rcases hp with e | e
      · rw [e]; simp
      · exact ih p e
    · cases hs : Split cs sep with
      | nil => exact absurd hs (Split_ne_nil cs sep)
      | cons q qs =>
        intro p hp
        rw [hs] at ih
        simp only [Split, hc, if_false, hs, List.mem_cons] at hp
        rcases hp with e | e
        · rw [e]
          intro hmem
          rcases List.mem_cons.1 hmem with h1 | h1
          · exact hc h1.symm
          · exact ih q (by simp) h1
        · exact ih p (by simp [e])

theorem Split_stringsJoin (elems : List GoString) (sep : Char) (hne : elems ≠ [])
    (hsep : ∀ e ∈ elems, sep ∉ e) : Split (stringsJoin elems [sep]) sep = elems := by
  induction elems with
  | nil => exact absurd rfl hne
  | cons a rest ih =>
    cases rest with
    | nil => simp [stringsJoin, Split_of_not_mem a sep (hsep a (by simp))]
    | cons b rest2 =>
      have e1 : stringsJoin (a :: b :: rest2) [sep] = a ++ sep :: stringsJoin (b :: rest2) [sep] := by
        simp [stringsJoin]
      rw [e1, Split_append_sep a _ sep (hsep a (by simp))]
      rw [ih (by simp) (fun e he => hsep e (by simp [he]))]

theorem cleanStep_of_normal (rooted : Bool) (out : List GoString) (e : GoString)
    (h : NormalElem e) : cleanStep rooted out e = e :: out := by
  obtain ⟨h1, _, h3, h4⟩ := h
  simp [cleanStep, h1, h3, h4]

theorem foldl_cleanStep_normal (rooted : Bool) (elems out : List GoString)
    (h : ∀ e ∈ elems, NormalElem e) :
    elems.foldl (cleanStep rooted) out = elems.reverse ++ out := by
  induction elems generalizing out with
  | nil => simp
  | cons a rest ih =>
    simp only [List.foldl_cons, cleanStep_of_normal rooted out a (h a (by simp))]
    rw [ih _ (fun e he => h e (by simp [he]))]
    simp

/-- On a rooted path the cleaning loop keeps only normal elements. -/
theorem cleanStep_rooted_keeps_normal (out : List GoString) (elem : GoString)
    (hout : ∀ e ∈ out, NormalElem e) (hsep : Separator ∉ elem) :
    ∀ e ∈ cleanStep true out elem, NormalElem e := by
  unfold cleanStep
  by_cases h1 : elem = []
  · simpa [h1] using hout
  · by_cases h2 : elem = ['.']
    · simpa [h2] using hout
    · by_cases h3 : elem = dotdot
      · subst h3
        have d1 : ¬ (dotdot = []) := by decide
        have d2 : ¬ (dotdot = ['.']) := by decide
        simp only [d1, d2, if_false, if_true]
        cases out with
        | nil => simp
        | cons top rest =>
          have htop := hout top (by simp)
          have : top ≠ dotdot := htop.2.2.2
          simp only [this, if_false]
          intro e he
          exact hout e (by simp [he])
      · simp only [h1, h2, h3, if_false]
        intro e he
        rcases List.mem_cons.1 he with e1 | e1
        · rw [e1]; exact ⟨h1, hsep, h2, h3⟩
        · exact hout e e1

theorem foldl_cleanStep_rooted_normal (pieces out : List GoString)
    (hout : ∀ e ∈ out, NormalElem e) (hsep : ∀ p ∈ pieces, Separator ∉ p) :
    ∀ e ∈ pieces.foldl (cleanStep true) out, NormalElem e := by
  induction pieces generalizing out with
  | nil => simpa using hout
  | cons a rest ih =>
    simp only [List.foldl_cons]
    exact ih _ (cleanStep_rooted_keeps_normal out a hout (hsep a (by simp)))
      (fun p hp => hsep p (by simp [hp]))

theorem cleanElems_rooted_normal (path : GoString) :
    ∀ e ∈ cleanElems true path, NormalElem e := by
  intro e he
  unfold cleanElems at he
  rw [List.mem_reverse] at he
  exact foldl_cleanStep_rooted_normal _ [] (by simp) (Split_pieces_no_sep path Separator) e he

theorem Clean_rooted (path : GoString) :
    Clean (Separator :: path) =
      Separator :: stringsJoin (cleanElems true (Separator :: path)) [Separator] := by
  simp [Clean]

/-- Cleaning the rooted path made of normal elements gives it back. -/
theorem Clean_rooted_of_normal (elems : List GoString) (h : ∀ e ∈ elems, NormalElem e) :
    Clean (Separator :: stringsJoin elems [Separator]) =
      Separator :: stringsJoin elems [Separator] := by
  rw [Clean_rooted]
  congr 1
  congr 1
  unfold cleanElems
  have hs : Split (Separator :: stringsJoin elems [Separator]) Separator =
      [] :: Split (stringsJoin elems [Separator]) Separator := by
    simp [Split]
  rw [hs]
  by_cases hne : elems = []
  · subst hne
    simp [stringsJoin, Split, cleanStep]
  · rw [Split_stringsJoin elems Separator hne (fun e he => (h e he).2.1)]
    simp only [List.foldl_cons]
    have h0 : cleanStep true [] [] = [] := by simp [cleanStep]
    rw [h0, foldl_cleanStep_normal true elems [] h]
    simp

/-- `filepath.Clean` is idempotent on rooted paths. -/
theorem Clean_Clean_rooted (path : GoString) :
    Clean (Clean (Separator :: path)) = Clean (Separator :: path) := by
  rw [Clean_rooted]
  exact Clean_rooted_of_normal _ (cleanElems_rooted_normal _)

theorem IsAbs_iff (path : GoString) : IsAbs path = true ↔ ∃ rest, path = Separator :: rest := by
  cases path with
  | nil => simp [IsAbs, HasPrefix, List.isPrefixOf]
  | cons c cs =>
    simp [IsAbs, HasPrefix, List.isPrefixOf]
    constructor
    · intro h; exact h.symm
    · intro h; exact h.symm

/-- Joining an absolute directory with any path gives an absolute clean path,
which `filepath.Abs` returns unchanged, whatever the working directory. -/
theorem Abs_Join_of_IsAbs (BaseDir x : GoString) (wd : Option GoString)
    (habs : IsAbs BaseDir = true) :
    Abs wd (Join [BaseDir, x]) = some (Join [BaseDir, x]) := by
  obtain ⟨rest, hr⟩ := (IsAbs_iff BaseDir).1 habs
  have hj : Join [BaseDir, x] = Clean (Separator :: (rest ++ Separator :: x)) := by
    subst hr
    simp [Join, stringsJoin]
  rw [hj]
  have habs2 : IsAbs (Clean (Separator :: (rest ++ Separator :: x))) = true := by
    rw [Clean_rooted]
    exact (IsAbs_iff _).2 ⟨_, rfl⟩
  unfold Abs
  rw [habs2]
  simp only [if_true]
  rw [Clean_Clean_rooted]

/-! ## `filepath.Clean` on relative paths, and joins with a clean root -/

theorem Split_append_sep_general (a b : GoString) (sep : Char) :
    Split (a ++ sep :: b) sep = Split a sep ++ Split b sep := by
  induction a with
  | nil => simp [Split]
  | cons c cs ih =>
    by_cases hc : c = sep
    · simp [Split, hc, ih]
    · cases hs : Split cs sep with
      | nil => exact absurd hs (Split_ne_nil cs sep)
      | cons p ps =>
        rw [hs] at ih
        simp [Split, hc, ih, hs]

/-- On a relative path the cleaning loop keeps normal elements on top of a run of `..`. -/
theorem cleanStep_relative_shape (out : List GoString) (elem : GoString)
    (hout : ∃ ns k, out = ns ++ List.replicate k dotdot ∧ ∀ e ∈ ns, NormalElem e)
    (hsep : Separator ∉ elem) :
    ∃ ns k, cleanStep false out elem = ns ++ List.replicate k dotdot ∧
      ∀ e ∈ ns, NormalElem e := by
  obtain ⟨ns, k, hout, hns⟩ := hout
  unfold cleanStep
  by_cases h1 : elem = []
  · exact ⟨ns, k, by simp [h1, hout], hns⟩
  · by_cases h2 : elem = ['.']
    · exact ⟨ns, k, by simp [h2, hout], hns⟩
    · by_cases h3 : elem = dotdot
      · subst h3
        have d1 : ¬ (dotdot = []) := by decide
        have d2 : ¬ (dotdot = ['.']) := by decide
        simp only [d1, d2, if_false, if_true]
        cases ns with
        | nil =>
          simp only [List.nil_append] at hout
          cases k with
          | zero =>
            simp only [List.replicate_zero] at hout
            subst hout
            exact ⟨[], 1, by simp, by simp⟩
          | succ j =>
            rw [List.replicate_succ] at hout
            subst hout
            simp only [if_true]
            exact ⟨[], j + 2, by simp [List.replicate_succ], by simp⟩
        | cons n ns2 =>
          simp only [List.cons_append] at hout
          subst hout
          have hn : n ≠ dotdot := (hns n (by simp)).2.2.2
          simp only [hn, if_false]
          exact ⟨ns2, k, rfl, fun e he => hns e (by simp [he])⟩
      · simp only [h1, h2, h3, if_false]
        refine ⟨elem :: ns, k, by simp [hout], ?_⟩
        intro e he
        rcases List.mem_cons.1 he with e1 | e1
        · rw [e1]; exact ⟨h1, hsep, h2, h3⟩
        · exact hns e e1

theorem foldl_cleanStep_relative_shape (pieces out : List GoString)
    (hout : ∃ ns k, out = ns ++ List.replicate k dotdot ∧ ∀ e ∈ ns, NormalElem e)
    (hsep : ∀ p ∈ pieces, Separator ∉ p) :
    ∃ ns k, pieces.foldl (cleanStep false) out = ns ++ List.replicate k dotdot ∧
      ∀ e ∈ ns, NormalElem e := by
  induction pieces generalizing out with
  | nil => simpa using hout
  | cons a rest ih =>
    simp only [List.foldl_cons]
    exact ih _ (cleanStep_relative_shape out a hout (hsep a (by simp)))
      (fun p hp => hsep p (by simp [hp]))

/-- The elements kept for a path that does not climb above its directory are all normal. -/
theorem cleanElems_normal_of_not_climbs (path : GoString) (h : climbsAbove path = false) :
    ∀ e ∈ cleanElems (isRooted path) path, NormalElem e := by
  cases hr : isRooted path with
  | true => exact cleanElems_rooted_normal path
  | false =>
    obtain ⟨ns, k, hshape, hns⟩ := foldl_cleanStep_relative_shape (Split path Separator) []
      ⟨[], 0, by simp, by simp⟩ (Split_pieces_no_sep path Separator)
    have helems : cleanElems false path = List.replicate k dotdot ++ ns.reverse := by
      unfold cleanElems
      rw [hshape]
      simp
    unfold climbsAbove at h
    rw [hr, helems] at h
    cases k with
    | zero =>
      intro e he
      rw [helems] at he
      simp only [List.replicate_zero, List.nil_append, List.mem_reverse] at he
      exact hns e he
    | succ j =>
      simp [List.replicate_succ] at h

theorem foldl_cleanStep_Split_stringsJoin (rooted : Bool) (elems acc : List GoString)
    (h : ∀ e ∈ elems, NormalElem e) :
    (Split (stringsJoin elems [Separator]) Separator).foldl (cleanStep rooted) acc =
      elems.reverse ++ acc := by
  by_cases hne : elems = []
  · subst hne
    simp [stringsJoin, Split, cleanStep]
  · rw [Split_stringsJoin elems Separator hne (fun e he => (h e he).2.1)]
    exact foldl_cleanStep_normal rooted elems acc h

/-- Running the cleaning loop over the cleaned form of a path that does not climb
pushes exactly the elements of that cleaned form. -/
theorem foldl_cleanStep_Split_Clean (rooted : Bool) (path : GoString) (acc : List GoString)
    (h : climbsAbove path = false) :
    (Split (Clean path) Separator).foldl (cleanStep rooted) acc =
      (cleanElems (isRooted path) path).reverse ++ acc := by
  have hnorm := cleanElems_normal_of_not_climbs path h
  cases path with
  | nil => simp [Clean, cleanElems, isRooted, Split, cleanStep, Separator]
  | cons c cs =>
    by_cases hc : c = Separator
    · subst hc
      have hr : isRooted (Separator :: cs) = true := by simp [isRooted]
      rw [hr] at hnorm ⊢
      rw [Clean_rooted]
      have hs : Split (Separator :: stringsJoin (cleanElems true (Separator :: cs)) [Separator])
          Separator =
          [] :: Split (stringsJoin (cleanElems true (Separator :: cs)) [Separator]) Separator := by
        simp [Split]
      rw [hs]
      simp only [List.foldl_cons]
      have h0 : cleanStep rooted acc [] = acc := by simp [cleanStep]
      rw [h0]
      exact foldl_cleanStep_Split_stringsJoin rooted _ acc hnorm
    · have hr : isRooted (c :: cs) = false := by simp [isRooted, hc]
      rw [hr] at hnorm ⊢
      have hClean : Clean (c :: cs) =
          if cleanElems false (c :: cs) = [] then ['.']
          else stringsJoin (cleanElems false (c :: cs)) [Separator] := by
        simp [Clean, hc]
      rw [hClean]
      by_cases he : cleanElems false (c :: cs) = []
      · simp [he, Split, cleanStep, Separator]
      · simp only [he, if_false]
        exact foldl_cleanStep_Split_stringsJoin rooted _ acc hnorm

theorem stringsJoin_append_prefix (a b : List GoString) (sep : GoString) :
    (stringsJoin a sep).isPrefixOf (stringsJoin (a ++ b) sep) = true := by
  rw [List.isPrefixOf_iff_prefix]
  induction a with
  | nil => simp [stringsJoin]
  | cons x rest ih =>
    cases rest with
    | nil =>
      cases b with
      | nil => simp [stringsJoin]
      | cons y ys => simp [stringsJoin]
    | cons z zs =>
      simp only [stringsJoin, List.cons_append, List.append_assoc]
      simp only [List.cons_append] at ih
      exact (List.prefix_append_right_inj x).2 ((List.prefix_append_right_inj sep).2 ih)

/-- With a clean absolute Root, a path that does not climb above its directory
resolves to a path that has Root as a prefix. -/
theorem Join_prefix_of_not_climbs (BaseDir p : GoString) (habs : IsAbs BaseDir = true)
    (hclean : Clean BaseDir = BaseDir) (h : climbsAbove p = false) :
    HasPrefix (Join [BaseDir, Clean p]) BaseDir = true := by
  obtain ⟨rest, hr⟩ := (IsAbs_iff BaseDir).1 habs
  have hj : Join [BaseDir, Clean p] = Clean (BaseDir ++ Separator :: Clean p) := by
    subst hr
    simp [Join, stringsJoin]
  have hB : BaseDir = Separator :: stringsJoin (cleanElems true BaseDir) [Separator] := by
    have := Clean_rooted rest
    rw [← hr] at this
    rw [hclean] at this
    exact this
  have hfold : (Split BaseDir Separator).foldl (cleanStep true) [] =
      (cleanElems true BaseDir).reverse := by
    unfold cleanElems
    simp
  have hE : cleanElems true (BaseDir ++ Separator :: Clean p) =
      cleanElems true BaseDir ++ cleanElems (isRooted p) p := by
    conv_lhs => unfold cleanElems
    rw [Split_append_sep_general, List.foldl_append, hfold,
      foldl_cleanStep_Split_Clean true p _ h]
    simp
  have hC : Clean (BaseDir ++ Separator :: Clean p) =
      Separator :: stringsJoin (cleanElems true BaseDir ++ cleanElems (isRooted p) p)
        [Separator] := by
    have h1 : BaseDir ++ Separator :: Clean p = Separator :: (rest ++ Separator :: Clean p) := by
      rw [hr]; rfl
    rw [← hE, h1]
    exact Clean_rooted _
  rw [hj, hC]
  have hpre : HasPrefix
      (Separator :: stringsJoin (cleanElems true BaseDir ++ cleanElems (isRooted p) p)
        [Separator])
      (Separator :: stringsJoin (cleanElems true BaseDir) [Separator]) = true := by
    unfold HasPrefix
    simp only [List.isPrefixOf, beq_self_eq_true, Bool.true_and]
    exact stringsJoin_append_prefix _ _ _
  rw [← hB] at hpre
  exact hpre

/-! ## Path containment -/

theorem HasPrefix_of_HasPrefix_append (s a b : GoString) (h : HasPrefix s (a ++ b) = true) :
    HasPrefix s a = true := by
  unfold HasPrefix at *
  rw [List.isPrefixOf_iff_prefix] at *
  exact (List.prefix_append a b).trans h

theorem HasPrefix_self (s : GoString) : HasPrefix s s = true := by
  unfold HasPrefix
  rw [List.isPrefixOf_iff_prefix]

theorem HasPrefix_of_staysWithin (root full : GoString) (h : staysWithin root full = true) :
    HasPrefix full root = true := by
  unfold staysWithin at h
  rw [Bool.or_eq_true] at h
  rcases h with h | h
  · rw [of_decide_eq_true h]; exact HasPrefix_self root
  · exact HasPrefix_of_HasPrefix_append _ _ _ h

/-- C7, the code at the failing input: with Root `/videos` the path
`../videos2/x` resolves to `/videos2/x`, which is neither Root nor beneath Root
followed by a separator, and both `browse.sanitizePath` and
`player.validatePath` accept it instead of failing with `ErrInvalidPath`. -/
theorem sibling_prefix_path_accepted :
    Join ["/videos".toList, Clean "../videos2/x".toList] = "/videos2/x".toList ∧
    staysWithin "/videos".toList "/videos2/x".toList = false ∧
    sanitizePath "/videos".toList (some "/srv".toList) "../videos2/x".toList =
      .ok "/videos2/x".toList ∧
    validatePath "/videos".toList (some "/srv".toList) "../videos2/x".toList =
      .ok "/videos2/x".toList := by
  decide

/-- When the cleaned join has Root as a prefix, `sanitizePath` returns it. -/
theorem sanitizePath_of_prefix (BaseDir : GoString) (wd : Option GoString) (p : GoString)
    (habs : IsAbs BaseDir = true)
    (hpre : HasPrefix (Join [BaseDir, Clean p]) BaseDir = true) :
    sanitizePath BaseDir wd p =
      .ok (if p = [] ∨ p = ['/'] then BaseDir else Join [BaseDir, Clean p]) ∧
    HasPrefix (if p = [] ∨ p = ['/'] then BaseDir else Join [BaseDir, Clean p]) BaseDir
      = true := by
  by_cases hp : p = [] ∨ p = ['/']
  · simp only [hp, if_true]
    exact ⟨by simp [sanitizePath, hp], HasPrefix_self BaseDir⟩
  · simp only [hp, if_false]
    refine ⟨?_, hpre⟩
    unfold sanitizePath
    simp only [hp, if_false]
    rw [Abs_Join_of_IsAbs BaseDir (Clean p) wd habs]
    simp only [hpre, Bool.not_true, Bool.false_eq_true, if_false]

/-- C8: for an absolute Root, the empty path and `/` resolve to Root itself, and
every path that stays within Root is resolved by `browse.sanitizePath` without
error to the cleaned join of Root and the path, which has Root as a prefix.
Staying within Root is taken in both readings: the cleaned join is Root or
starts with Root followed by a separator; or, for a Root in clean form (as
`filepath.Abs` leaves it in `Init`), collapsing the `.` and `..` segments of
the path, however many, leaves no leading `..`. -/
theorem sanitizePath_within_root (BaseDir : GoString) (wd : Option GoString)
    (habs : IsAbs BaseDir = true) :
    sanitizePath BaseDir wd [] = .ok BaseDir ∧
    sanitizePath BaseDir wd ['/'] = .ok BaseDir ∧
    (∀ p : GoString, staysWithin BaseDir (Join [BaseDir, Clean p]) = true →
      sanitizePath BaseDir wd p =
        .ok (if p = [] ∨ p = ['/'] then BaseDir else Join [BaseDir, Clean p]) ∧
      HasPrefix (if p = [] ∨ p = ['/'] then BaseDir else Join [BaseDir, Clean p]) BaseDir
        = true) ∧
    (Clean BaseDir = BaseDir → ∀ p : GoString, climbsAbove p = false →
      sanitizePath BaseDir wd p =
        .ok (if p = [] ∨ p = ['/'] then BaseDir else Join [BaseDir, Clean p]) ∧
      HasPrefix (if p = [] ∨ p = ['/'] then BaseDir else Join [BaseDir, Clean p]) BaseDir
        = true) := by
  refine ⟨by simp [sanitizePath], by simp [sanitizePath], ?_, ?_⟩
  · intro p hin
    exact sanitizePath_of_prefix BaseDir wd p habs (HasPrefix_of_staysWithin _ _ hin)
  · intro hclean p hclimb
    exact sanitizePath_of_prefix BaseDir wd p habs
      (Join_prefix_of_not_climbs BaseDir p habs hclean hclimb)

/-- Witness of C8: with Root `/videos` the path `a/./b/../../c/x.mp4`, which
stays within Root in both readings, resolves to `/videos/c/x.mp4`. -/
theorem sanitizePath_within_root_witness :
    IsAbs "/videos".toList = true ∧
    Clean "/videos".toList = "/videos".toList ∧
    climbsAbove "a/./b/../../c/x.mp4".toList = false ∧
    staysWithin "/videos".toList
      (Join ["/videos".toList, Clean "a/./b/../../c/x.mp4".toList]) = true ∧
    sanitizePath "/videos".toList none "a/./b/../../c/x.mp4".toList =
      .ok "/videos/c/x.mp4".toList ∧
    sanitizePath "/videos".toList none "a/./b/../../c/x.mp4".toList =
      .ok "/videos/c/x.mp4".toList :=
  ⟨by decide, by decide, by decide, by decide,
    ((sanitizePath_within_root "/videos".toList none (by decide)).2.2.1
      "a/./b/../../c/x.mp4".toList (by decide)).1,
    ((sanitizePath_within_root "/videos".toList none (by decide)).2.2.2 (by decide)
      "a/./b/../../c/x.mp4".toList (by decide)).1⟩

/-- C9, the code at the failing input: with Root `/videos` and the query path
`../../etc/x.mp4`, the three handlers pass `/etc/x.mp4`, a path outside Root,
to `video.GenerateThumbnail`, `video.EnsureSubtitle` and `video.GetInfo`, and
whatever these return the status of the response is not 400. -/
theorem video_handlers_pass_escaping_path {Info : Type}
    (GenerateThumbnail : GoString → Except GoString GoString)
    (EnsureSubtitle : GoString → GoString → Except GoString GoString)
    (GetInfo : GoString → Except GoString Info) (encode : GoString → Info → GoString) :
    staysWithin "/videos".toList "/etc/x.mp4".toList = false ∧
    sanitizePath "/videos".toList none "../../etc/x.mp4".toList = .error .ErrInvalidPath ∧
    (handleVideoThumbnail "/videos".toList GenerateThumbnail
      (videoRequest "../../etc/x.mp4".toList)).videoCalls = ["/etc/x.mp4".toList] ∧
    (handleVideoThumbnail "/videos".toList GenerateThumbnail
      (videoRequest "../../etc/x.mp4".toList)).response.status ≠ some 400 ∧
    (handleVideoSubtitle "/videos".toList EnsureSubtitle
      (videoRequest "../../etc/x.mp4".toList)).videoCalls = ["/etc/x.mp4".toList] ∧
    (handleVideoSubtitle "/videos".toList EnsureSubtitle
      (videoRequest "../../etc/x.mp4".toList)).response.status ≠ some 400 ∧
    (handleVideoAPI "/videos".toList GetInfo encode
      (videoRequest "../../etc/x.mp4".toList)).videoCalls = ["/etc/x.mp4".toList] ∧
    (handleVideoAPI "/videos".toList GetInfo encode
      (videoRequest "../../etc/x.mp4".toList)).response.status ≠ some 400 := by
  have hj : Join ["/videos".toList, "../../etc/x.mp4".toList] = "/etc/x.mp4".toList := by decide
  have hq : (videoRequest "../../etc/x.mp4".toList).queryPath = "../../etc/x.mp4".toList := rfl
  have hl : (videoRequest "../../etc/x.mp4".toList).queryLang = "en".toList := rfl
  have hne : ¬ ("../../etc/x.mp4".toList = ([] : GoString)) := by decide
  have hne2 : ¬ ("../../etc/x.mp4".toList = ([] : GoString) ∨ "en".toList = ([] : GoString)) := by
    decide
  have herr : ∀ (msg : GoString) (code : Nat),
      (httpError (newResponseWriter (videoRequest "../../etc/x.mp4".toList)) msg code).status =
        some code := by
    intro msg code
    simp [httpError, newResponseWriter, videoRequest, ResponseWriter.headerDel,
      ResponseWriter.headerSet, ResponseWriter.WriteHeader, ResponseWriter.Write]
  have hred : ∀ (url : GoString) (code : Nat),
      (httpRedirect (newResponseWriter (videoRequest "../../etc/x.mp4".toList)) url code).status =
        some code := by
    intro url code
    simp [httpRedirect, newResponseWriter, videoRequest, ResponseWriter.headerSet,
      ResponseWriter.WriteHeader]
  refine ⟨by decide, by decide, ?_, ?_, ?_, ?_, ?_, ?_⟩
  · unfold handleVideoThumbnail
    simp only [hq, hne, if_false, hj]
    cases GenerateThumbnail "/etc/x.mp4".toList <;> rfl
  · unfold handleVideoThumbnail
    simp only [hq, hne, if_false, hj]
    cases GenerateThumbnail "/etc/x.mp4".toList
    · simp only [herr]; decide
    · simp only [hred]; decide
  · unfold handleVideoSubtitle
    simp only [hq, hl, hne2, if_false, hj]
    cases EnsureSubtitle "/etc/x.mp4".toList "en".toList
    · simp only; split <;> rfl
    · rfl
  · unfold handleVideoSubtitle
    simp only [hq, hl, hne2, if_false, hj]
    cases EnsureSubtitle "/etc/x.mp4".toList "en".toList
    · simp only; split
      · simp only [herr]; decide
      · simp only [herr]; decide
    · simp only [hred]; decide
  · unfold handleVideoAPI
    simp only [hq, hne, if_false, hj]
    cases GetInfo "/etc/x.mp4".toList <;> rfl
  · unfold handleVideoAPI
    simp only [hq, hne, if_false, hj]
    cases GetInfo "/etc/x.mp4".toList
    · simp only [herr]; decide
    · simp [newResponseWriter, videoRequest, ResponseWriter.headerSet,
        ResponseWriter.WriteHeader, ResponseWriter.Write]

/-! ## Go string comparison -/

theorem Char_toNat_inj (a b : Char) (h : a.toNat = b.toNat) : a = b := by
  apply Char.ext
  apply UInt32.ext
  exact h

theorem strLess_irrefl (a : GoString) : strLess a a = false := by
  induction a with
  | nil => simp [strLess]
  | cons x xs ih => simp [strLess, ih]

theorem strLess_trans (a b c : GoString) (h1 : strLess a b = true) (h2 : strLess b c = true) :
    strLess a c = true := by
  induction a generalizing b c with
  | nil =>
    cases c with
    | nil => cases b <;> simp [strLess] at h2
    | cons z zs => simp [strLess]
  | cons x xs ih =>
    cases b with
    | nil => simp [strLess] at h1
    | cons y ys =>
      cases c with
      | nil => simp [strLess] at h2
      | cons z zs =>
        simp only [strLess] at h1 h2 ⊢
        by_cases hxy : x.toNat < y.toNat
        · by_cases hyz : y.toNat < z.toNat
          · have : x.toNat < z.toNat := by omega
            simp [this]
          · by_cases hzy : z.toNat < y.toNat
            · simp [hyz, hzy] at h2
            · have : x.toNat < z.toNat := by omega
              simp [this]
        · by_cases hyx : y.toNat < x.toNat
          · simp [hxy, hyx] at h1
          · simp only [hxy, hyx, if_false] at h1
            by_cases hyz : y.toNat < z.toNat
            · have : x.toNat < z.toNat := by omega
              simp [this]
            · by_cases hzy : z.toNat < y.toNat
              · simp [hyz, hzy] at h2
              · simp only [hyz, hzy, if_false] at h2
                have e1 : ¬ x.toNat < z.toNat := by omega
                have e2 : ¬ z.toNat < x.toNat := by omega
                simp only [e1, e2, if_false]
                exact ih ys zs h1 h2

theorem strLess_total (a b : GoString) (h1 : strLess a b = false) (h2 : strLess b a = false) :
    a = b := by
  induction a generalizing b with
  | nil =>
    cases b with
    | nil => rfl
    | cons y ys => simp [strLess] at h1
  | cons x xs ih =>
    cases b with
    | nil => simp [strLess] at h2
    | cons y ys =>
      simp only [strLess] at h1 h2
      by_cases hxy : x.toNat < y.toNat
      · simp [hxy] at h1
      · by_cases hyx : y.toNat < x.toNat
        · simp [hyx] at h2
        · simp only [hxy, hyx, if_false] at h1 h2
          have hc : x = y := Char_toNat_inj x y (by omega)
          rw [hc, ih ys h1 h2]

theorem strLess_asymm (a b : GoString) (h : strLess a b = true) : strLess b a = false := by
  cases hba : strLess b a with
  | false => rfl
  | true =>
    have := strLess_trans a b a h hba
    rw [strLess_irrefl] at this
    cases this

/-- The order `not (b < a)` on strings is transitive. -/
theorem strLess_neg_trans (a b c : GoString) (h1 : strLess b a = false)
    (h2 : strLess c b = false) : strLess c a = false := by
  cases hca : strLess c a with
  | false => rfl
  | true =>
    exfalso
    cases hab : strLess a b with
    | false =>
      have e := strLess_total a b hab h1
      subst e
      rw [hca] at h2; cases h2
    | true =>
      have := strLess_trans c a b hca hab
      rw [this] at h2; cases h2

/-! ## `sort.Slice` -/

theorem insertBack_perm {α : Type} (less : α → α → Bool) (x : α) (s : List α) :
    (insertBack less x s).Perm (x :: s) := by
  induction s with
  | nil => simp [insertBack]
  | cons y ys ih =>
    unfold insertBack
    split
    · exact (ih.cons y).trans (List.Perm.swap x y ys)
    · exact List.Perm.refl _

theorem foldl_insertBack_perm {α : Type} (less : α → α → Bool) (l acc : List α) :
    (l.foldl (fun s a => insertBack less a s) acc).Perm (l ++ acc) := by
  induction l generalizing acc with
  | nil => simp
  | cons a rest ih =>
    simp only [List.foldl_cons]
    refine (ih _).trans ?_
    refine (List.Perm.append_left rest (insertBack_perm less a acc)).trans ?_
    exact List.perm_middle

/-- The result of the insertion sort is a permutation of its input. -/
theorem insertionSort_perm {α : Type} (less : α → α → Bool) (l : List α) :
    (insertionSort less l).Perm l := by
  unfold insertionSort
  refine (List.reverse_perm _).trans ?_
  simpa using foldl_insertBack_perm less l []

theorem insertBack_sorted {α : Type} (less : α → α → Bool) (P : α → Prop)
    (hasym : ∀ a b, P a → P b → less a b = true → less b a = false)
    (htrans : ∀ a b c, P a → P b → P c → less b a = false → less c b = false →
      less c a = false)
    (x : α) (s : List α) (hx : P x) (hs : ∀ a ∈ s, P a)
    (hsorted : s.Pairwise (fun later earlier => less later earlier = false)) :
    (insertBack less x s).Pairwise (fun later earlier => less later earlier = false) := by
  induction s with
  | nil => simp [insertBack]
  | cons y ys ih =>
    have hy : P y := hs y (by simp)
    have hys : ∀ a ∈ ys, P a := fun a ha => hs a (by simp [ha])
    rw [List.pairwise_cons] at hsorted
    unfold insertBack
    by_cases hxy : less x y = true
    · simp only [hxy, if_true]
      rw [List.pairwise_cons]
      refine ⟨?_, ih hys hsorted.2⟩
      intro z hz
      have hz2 : z ∈ x :: ys := (insertBack_perm less x ys).subset hz
      rcases List.mem_cons.1 hz2 with e | e
      · rw [e]; exact hasym x y hx hy hxy
      · exact hsorted.1 z e
    · have hxy2 : less x y = false := by
        cases h : less x y with
        | false => rfl
        | true => exact absurd h hxy
      simp only [hxy2, Bool.false_eq_true, if_false]
      rw [List.pairwise_cons]
      refine ⟨?_, List.pairwise_cons.2 hsorted⟩
      intro z hz
      rcases List.mem_cons.1 hz with e | e
      · rw [e]; exact hxy2
      · exact htrans z y x (hys z e) hy hx (hsorted.1 z e) hxy2

theorem foldl_insertBack_sorted {α : Type} (less : α → α → Bool) (P : α → Prop)
    (hasym : ∀ a b, P a → P b → less a b = true → less b a = false)
    (htrans : ∀ a b c, P a → P b → P c → less b a = false → less c b = false →
      less c a = false)
    (l acc : List α) (hl : ∀ a ∈ l, P a) (hacc : ∀ a ∈ acc, P a)
    (hsorted : acc.Pairwise (fun later earlier => less later earlier = false)) :
    (l.foldl (fun s a => insertBack less a s) acc).Pairwise
      (fun later earlier => less later earlier = false) := by
  induction l generalizing acc with
  | nil => simpa using hsorted
  | cons a rest ih =>
    simp only [List.foldl_cons]
    apply ih
    · exact fun b hb => hl b (by simp [hb])
    · intro b hb
      have : b ∈ a :: acc := (insertBack_perm less a acc).subset hb
      rcases List.mem_cons.1 this with e | e
      · rw [e]; exact hl a (by simp)
      · exact hacc b e
    · exact insertBack_sorted less P hasym htrans a acc (hl a (by simp)) hacc hsorted

/-- The result of the insertion sort is sorted: no element is less than an earlier one,
provided `less` is asymmetric and its negation transitive on the elements. -/
theorem insertionSort_sorted {α : Type} (less : α → α → Bool) (P : α → Prop)
    (hasym : ∀ a b, P a → P b → less a b = true → less b a = false)
    (htrans : ∀ a b c, P a → P b → P c → less b a = false → less c b = false →
      less c a = false)
    (l : List α) (hl : ∀ a ∈ l, P a) :
    (insertionSort less l).Pairwise (fun earlier later => less later earlier = false) := by
  unfold insertionSort
  rw [List.pairwise_reverse]
  exact foldl_insertBack_sorted less P hasym htrans l [] hl (by simp) List.Pairwise.nil

/-- Two sorted arrangements of the same elements are equal when no two distinct
elements tie. -/
theorem sorted_perm_unique {α : Type} (less : α → α → Bool) (l1 l2 : List α)
    (hp : l1.Perm l2)
    (h1 : l1.Pairwise (fun earlier later => less later earlier = false))
    (h2 : l2.Pairwise (fun earlier later => less later earlier = false))
    (hanti : ∀ a ∈ l1, ∀ b ∈ l1, less a b = false → less b a = false → a = b) :
    l1 = l2 := by
  induction l1 generalizing l2 with
  | nil => exact (List.Perm.nil_eq hp)
  | cons a t1 ih =>
    cases l2 with
    | nil => exact absurd hp.symm.nil_eq (by simp)
    | cons b t2 =>
      rw [List.pairwise_cons] at h1 h2
      have hab : a = b := by
        have ha : a ∈ b :: t2 := hp.subset (by simp)
        have hb : b ∈ a :: t1 := hp.symm.subset (by simp)
        rcases List.mem_cons.1 ha with e | e
        · exact e
        · rcases List.mem_cons.1 hb with e2 | e2
          · exact e2.symm
          · exact hanti a (by simp) b (by simp [e2]) (h2.1 a e) (h1.1 b e2)
      subst hab
      have hp2 : t1.Perm t2 := List.Perm.cons_inv hp
      rw [ih t2 hp2 h1.2 h2.2 (fun x hx y hy => hanti x (by simp [hx]) y (by simp [hy]))]

/-! ## The comparator of `List` -/

theorem itemLess_asymm (caseTable : Char → Char) (a b : Item)
    (h : itemLess caseTable a b = true) : itemLess caseTable b a = false := by
  unfold itemLess at *
  by_cases hne : a.Type_ = b.Type_
  · simp only [hne, ne_eq, not_true_eq_false, if_false] at h ⊢
    exact strLess_asymm _ _ h
  · have hne2 : ¬ (b.Type_ = a.Type_) := fun e => hne e.symm
    simp only [ne_eq, hne, hne2, not_false_eq_true, if_true, decide_eq_true_eq,
      decide_eq_false_iff_not] at h ⊢
    intro hbd
    exact hne (h.trans hbd.symm)

theorem itemLess_neg_trans (caseTable : Char → Char) (a b c : Item)
    (ha : a.Type_ = "directory".toList ∨ a.Type_ = "video".toList)
    (hb : b.Type_ = "directory".toList ∨ b.Type_ = "video".toList)
    (hc : c.Type_ = "directory".toList ∨ c.Type_ = "video".toList)
    (h1 : itemLess caseTable b a = false) (h2 : itemLess caseTable c b = false) :
    itemLess caseTable c a = false := by
  have hdv : ¬ ("video".toList = "directory".toList) := by decide
  have hvd : ¬ ("directory".toList = "video".toList) := by decide
  unfold itemLess at *
  rcases ha with ha | ha <;> rcases hb with hb | hb <;> rcases hc with hc | hc <;>
    simp only [ha, hb, hc, ne_eq, hdv, hvd, not_true_eq_false, not_false_eq_true, if_true,
      if_false, decide_True, decide_False, Bool.true_eq_false, Bool.false_eq_true] at h1 h2 ⊢ <;>
    exact strLess_neg_trans _ _ _ h1 h2

theorem itemLess_tie (caseTable : Char → Char) (a b : Item)
    (h1 : itemLess caseTable a b = false) (h2 : itemLess caseTable b a = false)
    (ha : a.Type_ = "directory".toList ∨ a.Type_ = "video".toList)
    (hb : b.Type_ = "directory".toList ∨ b.Type_ = "video".toList) :
    a.Type_ = b.Type_ ∧ ToLower caseTable a.Name = ToLower caseTable b.Name := by
  have hdv : ¬ ("video".toList = "directory".toList) := by decide
  have hvd : ¬ ("directory".toList = "video".toList) := by decide
  unfold itemLess at *
  rcases ha with ha | ha <;> rcases hb with hb | hb <;>
    simp only [ha, hb, ne_eq, hdv, hvd, not_true_eq_false, not_false_eq_true, if_true,
      if_false, decide_True, decide_False, Bool.true_eq_false, Bool.false_eq_true] at h1 h2 ⊢
  · exact ⟨trivial, strLess_total _ _ h1 h2⟩
  · exact ⟨trivial, strLess_total _ _ h1 h2⟩

/-! ## The first pass of `List` -/

theorem collectEntries_dirs (caseTable : Char → Char) (BaseDir path : GoString)
    (entries : List DirEntry) :
    (∀ d ∈ (collectEntries caseTable BaseDir path entries).1, d.Type_ = "directory".toList) ∧
    ((collectEntries caseTable BaseDir path entries).1.map (fun d => d.Name)).Sublist
      ((entries.filter (fun e => e.isDir)).map (fun e => e.name)) := by
  induction entries with
  | nil => simp [collectEntries]
  | cons e rest ih =>
    have hskip : ((collectEntries caseTable BaseDir path rest).1.map (fun d => d.Name)).Sublist
        (((e :: rest).filter (fun e => e.isDir)).map (fun e => e.name)) := by
      refine ih.2.trans ?_
      apply List.Sublist.map
      rw [List.filter_cons]
      split
      · exact List.sublist_cons_self _ _
      · exact List.Sublist.refl _
    unfold collectEntries
    simp only
    split
    · exact ⟨ih.1, hskip⟩
    · split
      · exact ⟨ih.1, hskip⟩
      · split
        · exact ⟨ih.1, hskip⟩
        · split
          · rename_i hdir
            constructor
            · intro d hd
              rcases List.mem_cons.1 hd with h | h
              · rw [h]
              · exact ih.1 d h
            · simp only [List.map_cons, List.filter_cons, hdir, if_true]
              exact List.Sublist.cons₂ _ ih.2
          · split
            · exact ⟨ih.1, hskip⟩
            · exact ⟨ih.1, hskip⟩

theorem collectEntries_videos (caseTable : Char → Char) (BaseDir path : GoString)
    (entries : List DirEntry) :
    ((collectEntries caseTable BaseDir path entries).2.map (fun w => w.name)).Sublist
      ((entries.filter (fun e => !e.isDir)).map (fun e => e.name)) := by
  induction entries with
  | nil => simp [collectEntries]
  | cons e rest ih =>
    have hskip : ((collectEntries caseTable BaseDir path rest).2.map (fun w => w.name)).Sublist
        (((e :: rest).filter (fun e => !e.isDir)).map (fun e => e.name)) := by
      refine ih.trans ?_
      apply List.Sublist.map
      rw [List.filter_cons]
      split
      · exact List.sublist_cons_self _ _
      · exact List.Sublist.refl _
    unfold collectEntries
    simp only
    split
    · exact hskip
    · split
      · exact hskip
      · split
        · exact hskip
        · split
          · exact hskip
          · rename_i hdir
            split
            · have hd : e.isDir = false := by
                cases h : e.isDir with
                | false => rfl
                | true => exact absurd h hdir
              simp only [List.map_cons, List.filter_cons, hd, Bool.not_false, if_true]
              exact List.Sublist.cons₂ _ ih
            · exact hskip

/-- On directory and video items the comparator of `List` meets what
`sort.Slice` asks of `less`, so the insertion sort honours the contract
`SortsLongSlices` too. -/
theorem insertionSort_SortsLongSlices (caseTable : Char → Char) :
    SortsLongSlices insertionSort (itemLess caseTable) := by
  intro l _ hkind
  exact ⟨insertionSort_perm (itemLess caseTable) l,
    insertionSort_sorted (itemLess caseTable)
      (fun a => a.Type_ = "directory".toList ∨ a.Type_ = "video".toList)
      (fun a b _ _ h => itemLess_asymm caseTable a b h) (itemLess_neg_trans caseTable) l hkind⟩

/-- The result of `sort.Slice` with the comparator of `List` is a permutation of
its input, at every length. -/
theorem sortSlice_itemLess_perm_input (caseTable : Char → Char)
    (pdqsort : (Item → Item → Bool) → List Item → List Item)
    (hsort : SortsLongSlices pdqsort (itemLess caseTable)) (l : List Item)
    (hkind : ∀ a ∈ l, a.Type_ = "directory".toList ∨ a.Type_ = "video".toList) :
    (sortSlice pdqsort (itemLess caseTable) l).Perm l := by
  unfold sortSlice
  by_cases hlen : l.length ≤ 12
  · simp only [hlen, if_true]
    exact insertionSort_perm _ l
  · simp only [hlen, if_false]
    exact (hsort l (by omega) hkind).1

/-- The result of `sort.Slice` with the comparator of `List` is sorted, at every
length: no item is less than an earlier one. -/
theorem sortSlice_itemLess_sorted (caseTable : Char → Char)
    (pdqsort : (Item → Item → Bool) → List Item → List Item)
    (hsort : SortsLongSlices pdqsort (itemLess caseTable)) (l : List Item)
    (hkind : ∀ a ∈ l, a.Type_ = "directory".toList ∨ a.Type_ = "video".toList) :
    (sortSlice pdqsort (itemLess caseTable) l).Pairwise
      (fun earlier later => itemLess caseTable later earlier = false) := by
  unfold sortSlice
  by_cases hlen : l.length ≤ 12
  · simp only [hlen, if_true]
    exact insertionSort_sorted (itemLess caseTable)
      (fun a => a.Type_ = "directory".toList ∨ a.Type_ = "video".toList)
      (fun a b _ _ h => itemLess_asymm caseTable a b h) (itemLess_neg_trans caseTable) l hkind
  · simp only [hlen, if_false]
    exact (hsort l (by omega) hkind).2

/-! ## `List`: the order of the result -/

/-- Sorting two arrangements of the same directory and video items gives the
same sequence when no two distinct items tie under the comparator. -/
theorem sortSlice_itemLess_perm (caseTable : Char → Char)
    (pdqsort : (Item → Item → Bool) → List Item → List Item)
    (hsort : SortsLongSlices pdqsort (itemLess caseTable))
    (items1 items2 : List Item) (hp : items1.Perm items2)
    (hkind : ∀ a ∈ items1, a.Type_ = "directory".toList ∨ a.Type_ = "video".toList)
    (hdist : ∀ a ∈ items1, ∀ b ∈ items1, a.Type_ = b.Type_ →
      ToLower caseTable a.Name = ToLower caseTable b.Name → a = b) :
    sortSlice pdqsort (itemLess caseTable) items1 =
      sortSlice pdqsort (itemLess caseTable) items2 := by
  have hkind2 : ∀ a ∈ items2, a.Type_ = "directory".toList ∨ a.Type_ = "video".toList :=
    fun a ha => hkind a (hp.symm.subset ha)
  have hs1 := sortSlice_itemLess_sorted caseTable pdqsort hsort items1 hkind
  have hs2 := sortSlice_itemLess_sorted caseTable pdqsort hsort items2 hkind2
  have hp1 := sortSlice_itemLess_perm_input caseTable pdqsort hsort items1 hkind
  have hp2 := sortSlice_itemLess_perm_input caseTable pdqsort hsort items2 hkind2
  have hperm : (sortSlice pdqsort (itemLess caseTable) items1).Perm
      (sortSlice pdqsort (itemLess caseTable) items2) :=
    (hp1.trans hp).trans hp2.symm
  apply sorted_perm_unique (itemLess caseTable) _ _ hperm hs1 hs2
  intro a ha b hb h1 h2
  have ha1 : a ∈ items1 := hp1.subset ha
  have hb1 : b ∈ items1 := hp1.subset hb
  obtain ⟨ht, hn⟩ := itemLess_tie caseTable a b h1 h2 (hkind a ha1) (hkind b hb1)
  exact hdist a ha1 b hb1 ht hn

/-- The items `List` collects from case-distinct entries: each is a directory or
a video, and two of the same kind with the same lower-cased name are the same item. -/
theorem collected_items_distinct (caseTable : Char → Char) (BaseDir path : GoString)
    (entries : List DirEntry)
    (getDuration : GoString → Option Int) (hnames : caseDistinctByKind caseTable entries) :
    (∀ a ∈ (collectEntries caseTable BaseDir path entries).1 ++
        (collectEntries caseTable BaseDir path entries).2.map (videoItem getDuration),
      a.Type_ = "directory".toList ∨ a.Type_ = "video".toList) ∧
    (∀ a ∈ (collectEntries caseTable BaseDir path entries).1 ++
        (collectEntries caseTable BaseDir path entries).2.map (videoItem getDuration),
      ∀ b ∈ (collectEntries caseTable BaseDir path entries).1 ++
        (collectEntries caseTable BaseDir path entries).2.map (videoItem getDuration),
      a.Type_ = b.Type_ → ToLower caseTable a.Name = ToLower caseTable b.Name → a = b) := by
  obtain ⟨hdtype, hdsub⟩ := collectEntries_dirs caseTable BaseDir path entries
  have hvsub := collectEntries_videos caseTable BaseDir path entries
  have hvtype : ∀ v ∈ (collectEntries caseTable BaseDir path entries).2.map (videoItem getDuration),
      v.Type_ = "video".toList := by
    intro v hv
    obtain ⟨w, _, hw⟩ := List.mem_map.1 hv
    rw [← hw]; rfl
  have hdnodup : ((collectEntries caseTable BaseDir path entries).1.map
      (fun d => ToLower caseTable d.Name)).Nodup := by
    have h := (hdsub.map (ToLower caseTable))
    simp only [List.map_map] at h
    exact hnames.1.sublist h
  have hvnodup : (((collectEntries caseTable BaseDir path entries).2.map (videoItem getDuration)).map
      (fun d => ToLower caseTable d.Name)).Nodup := by
    have h := (hvsub.map (ToLower caseTable))
    simp only [List.map_map] at h
    have e : ((collectEntries caseTable BaseDir path entries).2.map (videoItem getDuration)).map
        (fun d => ToLower caseTable d.Name) =
        (collectEntries caseTable BaseDir path entries).2.map (ToLower caseTable ∘ fun w => w.name) := by
      rw [List.map_map]; rfl
    rw [e]
    exact hnames.2.sublist h
  have hdv : ¬ ("directory".toList = "video".toList) := by decide
  have hvd : ¬ ("video".toList = "directory".toList) := by decide
  constructor
  · intro a ha
    rcases List.mem_append.1 ha with h | h
    · exact Or.inl (hdtype a h)
    · exact Or.inr (hvtype a h)
  · intro a ha b hb ht hn
    rcases List.mem_append.1 ha with h1 | h1 <;> rcases List.mem_append.1 hb with h2 | h2
    · exact List.inj_on_of_nodup_map hdnodup h1 h2 hn
    · rw [hdtype a h1, hvtype b h2] at ht; exact absurd ht hdv
    · rw [hvtype a h1, hdtype b h2] at ht; exact absurd ht hvd
    · exact List.inj_on_of_nodup_map hvnodup h1 h2 hn

/-- C10, counterexample: in the library that holds `A.mp4` and `a.mp4`, the result
of `List` follows the arrival order of the two videos: when they arrive in
directory order `A.mp4` comes first, when they arrive in the opposite order
`a.mp4` comes first. The listing has three items, which `sort.Slice` sorts by
insertion sort. -/
theorem ListDir_tie_follows_arrival :
    (ListDir sampleCaseTable insertionSort "/videos".toList none tieTree (fun _ => none)
        id []).map (fun items => items.map (fun i => i.Name)) =
      .ok ["series".toList, "A.mp4".toList, "a.mp4".toList] ∧
    (ListDir sampleCaseTable insertionSort "/videos".toList none tieTree (fun _ => none)
        List.reverse []).map (fun items => items.map (fun i => i.Name)) =
      .ok ["series".toList, "a.mp4".toList, "A.mp4".toList] ∧
    ListDir sampleCaseTable insertionSort "/videos".toList none tieTree (fun _ => none) id [] ≠
      ListDir sampleCaseTable insertionSort "/videos".toList none tieTree (fun _ => none)
        List.reverse [] := by
  decide

/-- C10, amended: the sequence returned by `List` is independent of the fan-out
completion order whenever no two entries of the same kind in the listed
directory have names that are equal up to letter case (equal after
`strings.ToLower`, whatever Unicode's case table is): for every two arrival
orders of the video items (permutations of the same results) the sorted result
is the identical sequence, at every length of the listing, for every run of
`sort.Slice` that honours its contract. -/
theorem ListDir_order_independent (caseTable : Char → Char)
    (pdqsort : (Item → Item → Bool) → List Item → List Item)
    (BaseDir : GoString) (wd : Option GoString)
    (tree : DirTree) (getDuration : GoString → Option Int)
    (arrive1 arrive2 : List Item → List Item) (requestedPath : GoString)
    (hsort : SortsLongSlices pdqsort (itemLess caseTable))
    (h1 : ∀ l, (arrive1 l).Perm l) (h2 : ∀ l, (arrive2 l).Perm l)
    (hnames : ∀ path entries, sanitizePath BaseDir wd requestedPath = .ok path →
      tree.readDir path = some entries → caseDistinctByKind caseTable entries) :
    ListDir caseTable pdqsort BaseDir wd tree getDuration arrive1 requestedPath =
      ListDir caseTable pdqsort BaseDir wd tree getDuration arrive2 requestedPath := by
  unfold ListDir
  cases hs : sanitizePath BaseDir wd requestedPath with
  | error e => rfl
  | ok path =>
    simp only
    cases hst : tree.stat path with
    | none => rfl
    | some info =>
      simp only
      split
      · rfl
      · cases hr : tree.readDir path with
        | none => rfl
        | some entries =>
          simp only
          congr 1
          obtain ⟨hkind, hdist⟩ := collected_items_distinct caseTable BaseDir path entries
            getDuration (hnames path entries hs hr)
          have hp1 : ((collectEntries caseTable BaseDir path entries).1 ++
              arrive1 ((collectEntries caseTable BaseDir path entries).2.map
                (videoItem getDuration))).Perm
              ((collectEntries caseTable BaseDir path entries).1 ++
                (collectEntries caseTable BaseDir path entries).2.map
                  (videoItem getDuration)) :=
            List.Perm.append_left _ (h1 _)
          have hp2 : ((collectEntries caseTable BaseDir path entries).1 ++
              arrive2 ((collectEntries caseTable BaseDir path entries).2.map
                (videoItem getDuration))).Perm
              ((collectEntries caseTable BaseDir path entries).1 ++
                (collectEntries caseTable BaseDir path entries).2.map
                  (videoItem getDuration)) :=
            List.Perm.append_left _ (h2 _)
          rw [← sortSlice_itemLess_perm caseTable pdqsort hsort _ _ hp1.symm hkind hdist,
            ← sortSlice_itemLess_perm caseTable pdqsort hsort _ _ hp2.symm hkind hdist]

/-- Witness of C10 as amended: in the library that holds `B.mp4`, `a.mp4` and the
directory `series`, the result is `series`, `a.mp4`, `B.mp4` whether the videos
arrive in directory order or in the opposite order. -/
theorem ListDir_order_independent_witness :
    caseDistinctByKind sampleCaseTable plainEntries ∧
    (ListDir sampleCaseTable insertionSort "/videos".toList none plainTree (fun _ => none)
        List.reverse []).map (fun items => items.map (fun i => i.Name)) =
      .ok ["series".toList, "a.mp4".toList, "B.mp4".toList] ∧
    ListDir sampleCaseTable insertionSort "/videos".toList none plainTree (fun _ => none)
        id [] =
      ListDir sampleCaseTable insertionSort "/videos".toList none plainTree (fun _ => none)
        List.reverse [] :=
  ⟨by unfold caseDistinctByKind; decide, by decide,
    ListDir_order_independent sampleCaseTable insertionSort "/videos".toList none plainTree
      (fun _ => none) id List.reverse []
      (insertionSort_SortsLongSlices sampleCaseTable)
      (fun l => List.Perm.refl l) (fun l => List.reverse_perm l)
      (by
        intro path entries hp hr
        have hp0 : sanitizePath "/videos".toList none [] = .ok "/videos".toList := by decide
        rw [hp0] at hp
        injection hp with hp
        subst hp
        have hr0 : plainTree.readDir "/videos".toList = some plainEntries := by decide
        rw [hr0] at hr
        injection hr with hr
        subst hr
        unfold caseDistinctByKind
        decide)⟩

/-! ## `List`: the result is sorted and complete -/

/-- Every item `List` collects is a directory or a video. -/
theorem collected_items_kind (caseTable : Char → Char) (BaseDir path : GoString)
    (entries : List DirEntry) (getDuration : GoString → Option Int) :
    ∀ a ∈ (collectEntries caseTable BaseDir path entries).1 ++
        (collectEntries caseTable BaseDir path entries).2.map (videoItem getDuration),
      a.Type_ = "directory".toList ∨ a.Type_ = "video".toList := by
  intro a ha
  rcases List.mem_append.1 ha with h | h
  · exact Or.inl ((collectEntries_dirs caseTable BaseDir path entries).1 a h)
  · obtain ⟨w, _, hw⟩ := List.mem_map.1 h
    right
    rw [← hw]; rfl

/-- C11: a successful result of `List` is sorted by the two-key order and complete.
No video comes before a directory; of two items of the same Type (adjacent or
not) the lower-cased Name of the later one is not less than that of the earlier
one, lower-casing being `strings.ToLower` whatever Unicode's case table is; and
the result is a permutation of the directory items and video items collected
from the directory that was read. This holds at every length of the listing,
for every run of `sort.Slice` that honours its contract. -/
theorem ListDir_sorted_permutation (caseTable : Char → Char)
    (pdqsort : (Item → Item → Bool) → List Item → List Item)
    (BaseDir : GoString) (wd : Option GoString)
    (tree : DirTree) (getDuration : GoString → Option Int)
    (arrive : List Item → List Item) (requestedPath : GoString) (items : List Item)
    (hsort : SortsLongSlices pdqsort (itemLess caseTable))
    (harrive : ∀ l, (arrive l).Perm l)
    (hok : ListDir caseTable pdqsort BaseDir wd tree getDuration arrive requestedPath =
      .ok items) :
    ∃ path entries, sanitizePath BaseDir wd requestedPath = .ok path ∧
      tree.readDir path = some entries ∧
      items.Perm ((collectEntries caseTable BaseDir path entries).1 ++
        (collectEntries caseTable BaseDir path entries).2.map (videoItem getDuration)) ∧
      items.Pairwise (fun a b =>
        ¬ (a.Type_ = "video".toList ∧ b.Type_ = "directory".toList)) ∧
      items.Pairwise (fun a b =>
        a.Type_ = b.Type_ →
          strLess (ToLower caseTable b.Name) (ToLower caseTable a.Name) = false) := by
  unfold ListDir at hok
  cases hs : sanitizePath BaseDir wd requestedPath with
  | error e => rw [hs] at hok; cases hok
  | ok path =>
    rw [hs] at hok
    simp only at hok
    cases hst : tree.stat path with
    | none => rw [hst] at hok; cases hok
    | some info =>
      rw [hst] at hok
      simp only at hok
      split at hok
      · cases hok
      · cases hr : tree.readDir path with
        | none => rw [hr] at hok; cases hok
        | some entries =>
          rw [hr] at hok
          simp only at hok
          injection hok with hitems
          refine ⟨path, entries, rfl, hr, ?_⟩
          have hperm0 : ((collectEntries caseTable BaseDir path entries).1 ++
              arrive ((collectEntries caseTable BaseDir path entries).2.map
                (videoItem getDuration))).Perm
              ((collectEntries caseTable BaseDir path entries).1 ++
                (collectEntries caseTable BaseDir path entries).2.map
                  (videoItem getDuration)) :=
            List.Perm.append_left _ (harrive _)
          have hkind0 := collected_items_kind caseTable BaseDir path entries getDuration
          have hkind : ∀ a ∈ (collectEntries caseTable BaseDir path entries).1 ++
              arrive ((collectEntries caseTable BaseDir path entries).2.map
                (videoItem getDuration)),
              a.Type_ = "directory".toList ∨ a.Type_ = "video".toList :=
            fun a ha => hkind0 a (hperm0.subset ha)
          have hsorted := sortSlice_itemLess_sorted caseTable pdqsort hsort _ hkind
          have hperm := sortSlice_itemLess_perm_input caseTable pdqsort hsort _ hkind
          rw [hitems] at hsorted hperm
          have hdv : ¬ ("directory".toList = "video".toList) := by decide
          refine ⟨hperm.trans hperm0, ?_, ?_⟩
          · refine hsorted.imp ?_
            intro a b hba ⟨hav, hbd⟩
            unfold itemLess at hba
            have hne : b.Type_ ≠ a.Type_ := by
              rw [hav, hbd]; exact hdv
            rw [if_pos hne] at hba
            exact (of_decide_eq_false hba) hbd
          · refine hsorted.imp ?_
            intro a b hba hty
            unfold itemLess at hba
            have he : ¬ (b.Type_ ≠ a.Type_) := by
              intro h; exact h hty.symm
            rw [if_neg he] at hba
            exact hba

/-- Witness of C11: the sample library holds `B.mp4` and `a.mp4`, in this order in
the directory and on arrival, and the directory `series`. The listing is
`series`, `a.mp4`, `B.mp4`: the directory first, and `a.mp4` before `B.mp4`
because the names are compared lower-cased (as bytes `B.mp4` is the smaller). -/
theorem ListDir_sorted_permutation_witness :
    ListDir sampleCaseTable insertionSort "/videos".toList none plainTree (fun _ => none)
      id [] = .ok plainListing ∧
    plainListing.map (fun i => i.Name) =
      ["series".toList, "a.mp4".toList, "B.mp4".toList] ∧
    strLess "B.mp4".toList "a.mp4".toList = true ∧
    plainListing.Pairwise (fun a b =>
      ¬ (a.Type_ = "video".toList ∧ b.Type_ = "directory".toList)) ∧
    plainListing.Pairwise (fun a b =>
      a.Type_ = b.Type_ →
        strLess (ToLower sampleCaseTable b.Name) (ToLower sampleCaseTable a.Name) = false) :=
  ⟨by decide, by decide, by decide,
    (ListDir_sorted_permutation sampleCaseTable insertionSort "/videos".toList none plainTree
      (fun _ => none) id [] plainListing (insertionSort_SortsLongSlices sampleCaseTable)
      (fun l => List.Perm.refl l) (by decide)).elim
      (fun _ h => h.elim (fun _ h2 => ⟨h2.2.2.2.1, h2.2.2.2.2⟩))⟩

/-! ## Names above ASCII -/

/-- With a case table that sends `É` to `é`, the videos `É.mp4` and `à.mp4` are
listed `à.mp4` first, as the lower-cased names `é.mp4` and `à.mp4` order them;
as bytes `É.mp4` is the smaller name. -/
theorem ListDir_accented_names :
    (ListDir latinCaseTable insertionSort "/videos".toList none accentTree (fun _ => none)
        id []).map (fun items => items.map (fun i => i.Name)) =
      .ok [Char.ofNat 224 :: ".mp4".toList, Char.ofNat 201 :: ".mp4".toList] ∧
    strLess (Char.ofNat 201 :: ".mp4".toList) (Char.ofNat 224 :: ".mp4".toList) = true := by
  decide

/-- With a case table that sends `É` to `é`, the names `É.mp4` and `é.mp4` are
equal up to letter case: such entries are not case-distinct. -/
theorem accented_names_tie : ¬ caseDistinctByKind latinCaseTable accentTieEntries := by
  unfold caseDistinctByKind
  decide

/-! ## `GetInfo`: hit or miss by entry age -/

theorem cacheGet_cacheSet (cache : List (GoString × cacheEntry)) (path : GoString)
    (entry : cacheEntry) : cacheGet (cacheSet cache path entry) path = some entry := by
  simp [cacheGet, cacheSet]

/-- The test `time.Since(timestamp) < cacheDuration` holds exactly when the age
of the entry, the clock minus the timestamp, is below one hour
(3 600 000 000 000 ns). -/
theorem timeSince_lt_cacheDuration (now t : Int) :
    timeSince now t < cacheDuration ↔ now - t < 3600000000000 := by
  unfold timeSince cacheDuration
  constructor
  · intro h
    split at h
    · omega
    · split at h <;> omega
  · intro h
    split
    · omega
    · split <;> omega

/-- A call that finds an entry of age below one hour returns its pointer and
changes nothing. -/
theorem GetInfo_hit (probe : GoString → Except GoString ProbeData) (sscanInt : GoString → Int)
    (tCheck tStore : Int) (st : VideoState) (path : GoString) (entry : cacheEntry)
    (hentry : cacheGet st.cache path = some entry)
    (hage : tCheck - entry.timestamp < 3600000000000) :
    GetInfo probe sscanInt tCheck tStore st path = (st, .ok entry.info) := by
  have h := (timeSince_lt_cacheDuration tCheck entry.timestamp).2 hage
  unfold GetInfo
  simp only [hentry, h, if_true]

/-- A call that finds no entry, or an entry of age one hour or more, invokes the
probe, and when the probe succeeds allocates the metadata and stores its
pointer with the timestamp `tStore`. -/
theorem GetInfo_miss (probe : GoString → Except GoString ProbeData) (sscanInt : GoString → Int)
    (tCheck tStore : Int) (st : VideoState) (path : GoString)
    (hmiss : cacheGet st.cache path = none ∨
      ∃ entry, cacheGet st.cache path = some entry ∧
        3600000000000 ≤ tCheck - entry.timestamp) :
    (GetInfo probe sscanInt tCheck tStore st path).1.probeCalls = st.probeCalls ++ [path] ∧
    (∀ err, probe path = .error err →
      GetInfo probe sscanInt tCheck tStore st path =
        ({ st with probeCalls := st.probeCalls ++ [path] }, .error err)) ∧
    (∀ data, probe path = .ok data →
      (GetInfo probe sscanInt tCheck tStore st path).2 = .ok st.heap.length ∧
      cacheGet (GetInfo probe sscanInt tCheck tStore st path).1.cache path =
        some { info := st.heap.length, timestamp := tStore } ∧
      (GetInfo probe sscanInt tCheck tStore st path).1.heap =
        st.heap ++ [fillStreams (newVideoInfo sscanInt data) data.Streams]) := by
  have hcached : (match cacheGet st.cache path with
      | some entry =>
        if timeSince tCheck entry.timestamp < cacheDuration then some entry.info else none
      | none => (none : Option Nat)) = none := by
    rcases hmiss with h | ⟨entry, h, hage⟩
    · rw [h]
    · rw [h]
      have : ¬ (timeSince tCheck entry.timestamp < cacheDuration) := by
        rw [timeSince_lt_cacheDuration]; omega
      simp only [this, if_false]
  unfold GetInfo
  simp only [hcached]
  refine ⟨?_, ?_, ?_⟩
  · cases probe path <;> rfl
  · intro err herr
    rw [herr]
  · intro data hdata
    rw [hdata]
    refine ⟨rfl, ?_, ?_⟩
    · exact cacheGet_cacheSet _ _ _
    · simp

/-- C12: `GetInfo` decides hit or miss by the age of the entry, the clock minus
the entry's timestamp, against the TTL of one hour (3 600 000 000 000 ns). With
an entry for the path whose age is below one hour it returns that entry's
pointer, does not invoke the probe and leaves the whole state unchanged. With no
entry, or one whose age is one hour or more, it invokes the probe; when the
probe succeeds it stores the pointer to the new metadata (width, height and
subtitle tracks filled in) with the fresh timestamp. So a call that follows a
filling call within one hour of its timestamp returns the pointer the filling
call returned and invokes the probe no further. -/
theorem GetInfo_cache_ttl (probe : GoString → Except GoString ProbeData)
    (sscanInt : GoString → Int) (tCheck tStore : Int) (st : VideoState) (path : GoString) :
    (∀ entry, cacheGet st.cache path = some entry →
      tCheck - entry.timestamp < 3600000000000 →
      GetInfo probe sscanInt tCheck tStore st path = (st, .ok entry.info)) ∧
    ((cacheGet st.cache path = none ∨
        ∃ entry, cacheGet st.cache path = some entry ∧
          3600000000000 ≤ tCheck - entry.timestamp) →
      (GetInfo probe sscanInt tCheck tStore st path).1.probeCalls = st.probeCalls ++ [path] ∧
      ∀ data, probe path = .ok data →
        (GetInfo probe sscanInt tCheck tStore st path).2 = .ok st.heap.length ∧
        cacheGet (GetInfo probe sscanInt tCheck tStore st path).1.cache path =
          some { info := st.heap.length, timestamp := tStore } ∧
        (GetInfo probe sscanInt tCheck tStore st path).1.heap =
          st.heap ++ [fillStreams (newVideoInfo sscanInt data) data.Streams] ∧
        ∀ tCheck2 tStore2 : Int, tCheck2 - tStore < 3600000000000 →
          GetInfo probe sscanInt tCheck2 tStore2
              (GetInfo probe sscanInt tCheck tStore st path).1 path =
            GetInfo probe sscanInt tCheck tStore st path) := by
  refine ⟨fun entry h1 h2 => GetInfo_hit probe sscanInt tCheck tStore st path entry h1 h2, ?_⟩
  intro hmiss
  obtain ⟨hcalls, _, hok⟩ := GetInfo_miss probe sscanInt tCheck tStore st path hmiss
  refine ⟨hcalls, ?_⟩
  intro data hdata
  obtain ⟨hres, hcache, hheap⟩ := hok data hdata
  refine ⟨hres, hcache, hheap, ?_⟩
  intro tCheck2 tStore2 hage
  have h := GetInfo_hit probe sscanInt tCheck2 tStore2
    (GetInfo probe sscanInt tCheck tStore st path).1 path
    { info := st.heap.length, timestamp := tStore } hcache hage
  rw [h]
  exact Prod.ext rfl hres.symm

/-- Witness of C12, on clock readings in nanoseconds since 1970. The first call
on the sample video finds the cache empty, invokes the probe and stores the
metadata at pointer 0 with the timestamp 1 700 000 000 000 000 000. A call
3 599 999 999 999 ns after that timestamp, one nanosecond short of an hour, is
a hit: it returns the pointer 0 and the same state, the probe invoked once in
all. A call 3 600 000 000 000 ns after the timestamp, one hour, is a miss: it
invokes the probe again and stores pointer 1 with the new timestamp. -/
theorem GetInfo_cache_ttl_witness :
    GetInfo sampleProbe (fun _ => 800000) 1699999999999000000 1700000000000000000
        emptyVideoState "/videos/a.mkv".toList =
      ({ heap := [sampleVideoInfo],
         cache := [("/videos/a.mkv".toList, { info := 0, timestamp := 1700000000000000000 })],
         probeCalls := ["/videos/a.mkv".toList] }, .ok 0) ∧
    GetInfo sampleProbe (fun _ => 800000) 1700003599999999999 1700003600000000500
        (GetInfo sampleProbe (fun _ => 800000) 1699999999999000000 1700000000000000000
          emptyVideoState "/videos/a.mkv".toList).1
        "/videos/a.mkv".toList =
      GetInfo sampleProbe (fun _ => 800000) 1699999999999000000 1700000000000000000
        emptyVideoState "/videos/a.mkv".toList ∧
    GetInfo sampleProbe (fun _ => 800000) 1700003600000000000 1700003600000000500
        (GetInfo sampleProbe (fun _ => 800000) 1699999999999000000 1700000000000000000
          emptyVideoState "/videos/a.mkv".toList).1
        "/videos/a.mkv".toList =
      ({ heap := [sampleVideoInfo, sampleVideoInfo],
         cache := [("/videos/a.mkv".toList, { info := 1, timestamp := 1700003600000000500 })],
         probeCalls := ["/videos/a.mkv".toList, "/videos/a.mkv".toList] }, .ok 1) ∧
    (GetInfo sampleProbe (fun _ => 800000) 1700003600000000000 1700003600000000500
        (GetInfo sampleProbe (fun _ => 800000) 1699999999999000000 1700000000000000000
          emptyVideoState "/videos/a.mkv".toList).1
        "/videos/a.mkv".toList).1.probeCalls =
      ["/videos/a.mkv".toList, "/videos/a.mkv".toList] :=
  ⟨by decide,
    ((GetInfo_cache_ttl sampleProbe (fun _ => 800000) 1699999999999000000 1700000000000000000
      emptyVideoState "/videos/a.mkv".toList).2 (Or.inl (by decide))).2 sampleProbeData
      (by decide) |>.2.2.2 1700003599999999999 1700003600000000500 (by decide),
    by decide,
    ((GetInfo_cache_ttl sampleProbe (fun _ => 800000) 1700003600000000000 1700003600000000500
      (GetInfo sampleProbe (fun _ => 800000) 1699999999999000000 1700000000000000000
        emptyVideoState "/videos/a.mkv".toList).1
      "/videos/a.mkv".toList).2
      (Or.inr ⟨{ info := 0, timestamp := 1700000000000000000 }, by decide, by decide⟩)).1⟩

/-! ## `GenerateThumbnail` runs the tool on every call -/

/-- C13, counterexample: on a disk that already holds the thumbnail of
`/videos/a.mp4`, with `ffmpeg` succeeding, the first call runs `ffmpeg` although
the target file exists, and two successive calls run it twice in total. And
when the first run fails and the second succeeds, the two calls return
different paths, the placeholder and the thumbnail. -/
theorem GenerateThumbnail_runs_twice :
    thumbnailPresent.stat (thumbnailPath "/videos/a.mp4".toList) = StatResult.found ∧
    (GenerateThumbnail (fun _ _ => true) thumbnailPresent
      "/videos/a.mp4".toList).1.ffmpegCalls.length = 1 ∧
    (GenerateThumbnail (fun _ _ => true)
      (GenerateThumbnail (fun _ _ => true) thumbnailPresent "/videos/a.mp4".toList).1
      "/videos/a.mp4".toList).1.ffmpegCalls.length = 2 ∧
    (GenerateThumbnail (fun _ _ => true) thumbnailPresent "/videos/a.mp4".toList).2 =
      "/thumbnails/a.mp4.jpg".toList ∧
    (GenerateThumbnail (fun n _ => decide (n ≠ 0)) thumbnailPresent "/videos/a.mp4".toList).2 =
      "/static/img/no-preview.jpg".toList ∧
    (GenerateThumbnail (fun n _ => decide (n ≠ 0))
      (GenerateThumbnail (fun n _ => decide (n ≠ 0)) thumbnailPresent
        "/videos/a.mp4".toList).1
      "/videos/a.mp4".toList).2 = "/thumbnails/a.mp4.jpg".toList := by
  decide

/-- One call of `GenerateThumbnail` on a path that `os.Stat` does not report as
not existing: it runs `ffmpeg` once, returns by the outcome of that run, and
leaves the path not reported as not existing. -/
theorem GenerateThumbnail_one_call (ffmpeg : Nat → List GoString → Bool) (st : ThumbState)
    (videoPath : GoString) (hstat : st.stat videoPath ≠ StatResult.notExist) :
    (GenerateThumbnail ffmpeg st videoPath).1.ffmpegCalls =
      st.ffmpegCalls ++ [thumbnailArgs videoPath] ∧
    (GenerateThumbnail ffmpeg st videoPath).2 =
      (if ffmpeg st.ffmpegCalls.length (thumbnailArgs videoPath)
        then "/thumbnails/".toList ++ Base (thumbnailPath videoPath)
        else "/static/img/no-preview.jpg".toList) ∧
    (GenerateThumbnail ffmpeg st videoPath).1.stat videoPath ≠ StatResult.notExist := by
  unfold GenerateThumbnail
  simp only [hstat, if_false]
  cases hf : ffmpeg st.ffmpegCalls.length (thumbnailArgs videoPath) with
  | false =>
    simp only [Bool.not_false, if_true, Bool.false_eq_true, if_false]
    exact ⟨trivial, trivial, hstat⟩
  | true =>
    simp only [Bool.not_true, Bool.false_eq_true, if_false, if_true]
    refine ⟨trivial, trivial, ?_⟩
    by_cases hp : videoPath = thumbnailPath videoPath
    · simp only [hp.symm, if_true]
      exact fun h => by cases h
    · simp only [hp, if_false]
      exact hstat

/-- C13, amended: thumbnail generation is not cached. For every video path that
`os.Stat` does not report as not existing (the file is there, or `Stat` fails
otherwise), each call of `GenerateThumbnail` runs `ffmpeg` once, with the
overwrite flag, whether or not the target thumbnail exists, so two successive
calls run it twice in total. Each call returns the thumbnail path when its own
run succeeds and the placeholder when it fails, so the two calls return the
identical path when their two runs have the same outcome. Only when `os.Stat`
reports that the video does not exist does the call return, with the
placeholder, without any external invocation. -/
theorem GenerateThumbnail_every_call (ffmpeg : Nat → List GoString → Bool) (st : ThumbState)
    (videoPath : GoString) :
    (st.stat videoPath ≠ StatResult.notExist →
      (GenerateThumbnail ffmpeg st videoPath).1.ffmpegCalls =
        st.ffmpegCalls ++ [thumbnailArgs videoPath] ∧
      (GenerateThumbnail ffmpeg st videoPath).2 =
        (if ffmpeg st.ffmpegCalls.length (thumbnailArgs videoPath)
          then "/thumbnails/".toList ++ Base (thumbnailPath videoPath)
          else "/static/img/no-preview.jpg".toList) ∧
      (GenerateThumbnail ffmpeg (GenerateThumbnail ffmpeg st videoPath).1
          videoPath).1.ffmpegCalls =
        st.ffmpegCalls ++ [thumbnailArgs videoPath, thumbnailArgs videoPath] ∧
      (GenerateThumbnail ffmpeg (GenerateThumbnail ffmpeg st videoPath).1 videoPath).2 =
        (if ffmpeg (st.ffmpegCalls.length + 1) (thumbnailArgs videoPath)
          then "/thumbnails/".toList ++ Base (thumbnailPath videoPath)
          else "/static/img/no-preview.jpg".toList) ∧
      (ffmpeg (st.ffmpegCalls.length + 1) (thumbnailArgs videoPath) =
          ffmpeg st.ffmpegCalls.length (thumbnailArgs videoPath) →
        (GenerateThumbnail ffmpeg (GenerateThumbnail ffmpeg st videoPath).1 videoPath).2 =
          (GenerateThumbnail ffmpeg st videoPath).2)) ∧
    (st.stat videoPath = StatResult.notExist →
      GenerateThumbnail ffmpeg st videoPath = (st, "/static/img/no-preview.jpg".toList)) := by
  constructor
  · intro hstat
    obtain ⟨a1, a2, a3⟩ := GenerateThumbnail_one_call ffmpeg st videoPath hstat
    obtain ⟨b1, b2, _⟩ := GenerateThumbnail_one_call ffmpeg
      (GenerateThumbnail ffmpeg st videoPath).1 videoPath a3
    have hlen : (GenerateThumbnail ffmpeg st videoPath).1.ffmpegCalls.length =
        st.ffmpegCalls.length + 1 := by
      rw [a1]; simp
    rw [hlen] at b2
    refine ⟨a1, a2, ?_, b2, ?_⟩
    · rw [b1, a1]; simp
    · intro hsame
      rw [b2, a2, hsame]
  · intro hstat
    unfold GenerateThumbnail
    simp only [hstat, if_true]

/-- Witness of C13 as amended: on the disk that already holds the thumbnail the
call runs `ffmpeg`; and on the disk where `os.Stat` of the video fails with
permission denied, which is not a not-exist error, the call runs `ffmpeg` too. -/
theorem GenerateThumbnail_every_call_witness :
    thumbnailPresent.stat "/videos/a.mp4".toList = StatResult.found ∧
    (GenerateThumbnail (fun _ _ => true) thumbnailPresent
        "/videos/a.mp4".toList).1.ffmpegCalls =
      thumbnailPresent.ffmpegCalls ++ [thumbnailArgs "/videos/a.mp4".toList] ∧
    videoUnreadable.stat "/private/a.mp4".toList = StatResult.otherError ∧
    (GenerateThumbnail (fun _ _ => false) videoUnreadable
        "/private/a.mp4".toList).1.ffmpegCalls =
      videoUnreadable.ffmpegCalls ++ [thumbnailArgs "/private/a.mp4".toList] :=
  ⟨by decide,
    ((GenerateThumbnail_every_call (fun _ _ => true) thumbnailPresent
      "/videos/a.mp4".toList).1 (by decide)).1,
    by decide,
    ((GenerateThumbnail_every_call (fun _ _ => false) videoUnreadable
      "/private/a.mp4".toList).1 (by decide)).1⟩

/-! ## The JSON browse endpoint joins Root twice -/

/-- C14, the code at the failing inputs: with Root `/videos`, for the empty query
path `handleBrowseAPI` passes `/videos` to `List`, whose `sanitizePath` resolves
it to `/videos/videos`, not to Root, and for the query path `series` it passes
`/videos/series`, resolved to `/videos/videos/series`; `handleBrowseHTML`
passes `/` and `series`, resolved to `/videos` and `/videos/series`. In the
library that holds `/videos` and `/videos/series` the JSON endpoint answers 500
where the HTML endpoint answers 200. -/
theorem browse_api_joins_root_twice (encode renderHTML : GoString → List Item → GoString) :
    (handleBrowseAPI sampleCaseTable insertionSort "/videos".toList none libraryTree
      (fun _ => none) id encode
      (browseRequest [])).listCalls = ["/videos".toList] ∧
    sanitizePath "/videos".toList none "/videos".toList = .ok "/videos/videos".toList ∧
    sanitizePath "/videos".toList none [] = .ok "/videos".toList ∧
    (handleBrowseAPI sampleCaseTable insertionSort "/videos".toList none libraryTree
      (fun _ => none) id encode
      (browseRequest "series".toList)).listCalls = ["/videos/series".toList] ∧
    sanitizePath "/videos".toList none "/videos/series".toList =
      .ok "/videos/videos/series".toList ∧
    sanitizePath "/videos".toList none "series".toList = .ok "/videos/series".toList ∧
    (handleBrowseHTML sampleCaseTable insertionSort "/videos".toList none libraryTree
      (fun _ => none) id renderHTML
      (browseRequest [])).listCalls = ["/".toList] ∧
    sanitizePath "/videos".toList none "/".toList = .ok "/videos".toList ∧
    (handleBrowseHTML sampleCaseTable insertionSort "/videos".toList none libraryTree
      (fun _ => none) id renderHTML
      (browseRequest "series".toList)).listCalls = ["series".toList] ∧
    (handleBrowseAPI sampleCaseTable insertionSort "/videos".toList none libraryTree
      (fun _ => none) id encode
      (browseRequest [])).response.status = some 500 ∧
    (handleBrowseHTML sampleCaseTable insertionSort "/videos".toList none libraryTree
      (fun _ => none) id renderHTML
      (browseRequest [])).response.status = some 200 := by
  have hA1 : ListDir sampleCaseTable insertionSort "/videos".toList none libraryTree
      (fun _ => none) id "/videos".toList =
      .error .statError := by decide
  have hA2 : ListDir sampleCaseTable insertionSort "/videos".toList none libraryTree
      (fun _ => none) id
      "/videos/series".toList = .error .statError := by decide
  have hH1 : ListDir sampleCaseTable insertionSort "/videos".toList none libraryTree
      (fun _ => none) id "/".toList =
      .ok plainListing := by decide
  have hH2 : ListDir sampleCaseTable insertionSort "/videos".toList none libraryTree
      (fun _ => none) id "series".toList =
      .ok [] := by decide
  have hj1 : Join ["/videos".toList, ['/']] = "/videos".toList := by decide
  have hj2 : Join ["/videos".toList, "series".toList] = "/videos/series".toList := by decide
  have hq1 : (browseRequest []).queryPath = [] := rfl
  have hq2 : (browseRequest "series".toList).queryPath = "series".toList := rfl
  have hne : ¬ ("series".toList = ([] : GoString)) := by decide
  have he1 : ¬ (Ext ['/'] ≠ []) := by decide
  have he2 : ¬ (Ext "series".toList ≠ []) := by decide
  have hs1 : "/".toList = ['/'] := rfl
  refine ⟨?_, by decide, by decide, ?_, by decide, by decide, ?_, by decide, ?_, ?_, ?_⟩
  · unfold handleBrowseAPI
    simp only [hq1, if_true, hj1, hA1]
    rfl
  · unfold handleBrowseAPI
    simp only [hq2, hne, if_false, hj2, hA2]
    rfl
  · unfold handleBrowseHTML
    simp only [hq1, if_true, he1, if_false]
    rw [← hs1, hH1]
  · unfold handleBrowseHTML
    simp only [hq2, hne, if_false, he2, hH2]
  · unfold handleBrowseAPI
    simp only [hq1, if_true, hj1, hA1]
    decide
  · unfold handleBrowseHTML
    simp only [hq1, if_true, he1, if_false]
    rw [← hs1, hH1]
    simp [newResponseWriter, browseRequest, ResponseWriter.headerSet,
      ResponseWriter.WriteHeader, ResponseWriter.Write]

end Wallplayer
